import Mathlib

/-! Bugzilla REST client: query builder, records and result sorter.

A shallow embedding of `bugzilla.go` (package `bugzilla`): the `BugBuilder`
configuration methods, the query string that `BugBuilder.Execute` assembles
and the request it issues, the postprocessing of the decoded records, and the
sorter `By.Sort`.

Conventions of the embedding.

* A Go `string` is a sequence of bytes: `GoString := List UInt8`.  `lit` turns a
  source literal into its UTF-8 bytes.
* A Go slice is `Option (List α)`: `none` is the `nil` slice, `some xs` a non-nil
  slice with elements `xs`.  `x != nil` is `x ≠ none`, `len(x)` the length of the
  elements, `append(x, v)` is always non-nil.
* A Go map that is ranged over is `Option (List (key × value))`: `none` is the
  `nil` map, and the list gives the entries in the order the `range` loop visits
  them (Go leaves that order unspecified, so theorems quantify over all lists).
* Go `int` values are `Int`.
* The pointer `bb.bz` is taken non-nil (a builder comes from `GetBugs`, which
  sets it); `Execute` dereferences it unconditionally.
-/

namespace GoBugzilla

/-! ## Strings and the standard-library functions the builder calls -/

/-- A Go string: a sequence of bytes. -/
abbrev GoString := List UInt8

/-- The bytes of a Go string literal (Go source text is UTF-8). -/
def lit (s : String) : GoString := s.toList.flatMap String.utf8EncodeChar

/-- A Go slice: `none` is `nil`, `some xs` is a non-nil slice holding `xs`. -/
abbrev Slice (α : Type) := Option (List α)

/-- The elements a `range` loop over the slice visits (none for `nil`). -/
def Slice.elems {α : Type} (s : Slice α) : List α := s.getD []

/-- Go's builtin `append(s, v)`: the result is never `nil`. -/
def Slice.append {α : Type} (s : Slice α) (v : α) : Slice α := some (s.elems ++ [v])

/-- Decimal digits of a natural number, most significant first. -/
def decimal (n : Nat) : GoString := (Nat.toDigits 10 n).flatMap String.utf8EncodeChar

/-- Go's `strconv.Itoa`: base 10, with a leading `-` for negative numbers. -/
def Itoa (i : Int) : GoString :=
  match i with
  | Int.ofNat n => decimal n
  | Int.negSucc n => lit "-" ++ decimal (n + 1)

/-- Go's `url.shouldEscape(c, encodeQueryComponent)`: everything is escaped
except ASCII letters, digits and `-` `_` `.` `~`. -/
def shouldEscape (c : UInt8) : Bool :=
  if (97 ≤ c ∧ c ≤ 122) ∨ (65 ≤ c ∧ c ≤ 90) ∨ (48 ≤ c ∧ c ≤ 57) then false
  else if c = 45 ∨ c = 95 ∨ c = 46 ∨ c = 126 then false
  else true

/-- The table `upperhex` of `net/url`. -/
def upperhex : GoString := lit "0123456789ABCDEF"

/-- What `url.escape` writes for one input byte in query-component mode:
`+` for a space, `%XX` for a byte that must be escaped, the byte itself
otherwise. -/
def escapeByte (c : UInt8) : GoString :=
  if c = 32 then lit "+"
  else if shouldEscape c then
    [37, upperhex.getD (c.toNat / 16) 0, upperhex.getD (c.toNat % 16) 0]
  else [c]

/-- Go's `url.QueryEscape`. -/
def QueryEscape (s : GoString) : GoString := s.flatMap escapeByte

/-! ## Time: `time.Now`, `Time.Add`, `Time.Year/Month/Day` -/

/-- A `time.Time`: an instant (seconds since the Unix epoch, and the nanoseconds
within that second) together with its location, given as the offset east of
UTC, in seconds, in force at an instant. -/
structure Time where
  unix : Int
  zone : Int → Int
  nsec : Nat := 0

/-- The method `Time.Add` for a duration given in seconds. -/
def Time.Add (t : Time) (seconds : Int) : Time := { t with unix := t.unix + seconds }

/-- Year, month and day of the proleptic Gregorian calendar for a day number
counted from 1970-01-01. -/
def civil (days : Int) : Int × Int × Int :=
  let z := days + 719468
  let era := z / 146097
  let doe := z - era * 146097
  let yoe := (doe - doe / 1460 + doe / 36524 - doe / 146096) / 365
  let doy := doe - (365 * yoe + yoe / 4 - yoe / 100)
  let mp := (5 * doy + 2) / 153
  let d := doy - (153 * mp + 2) / 5 + 1
  let m := if mp < 10 then mp + 3 else mp - 9
  (yoe + era * 400 + (if m ≤ 2 then 1 else 0), m, d)

/-- The calendar date of the instant in its location. -/
def Time.date (t : Time) : Int × Int × Int := civil ((t.unix + t.zone t.unix) / 86400)

/-- The method `Time.Year`. -/
def Time.Year (t : Time) : Int := t.date.1

/-- The method `Time.Month` (a `time.Month`, an integer type). -/
def Time.Month (t : Time) : Int := t.date.2.1

/-- The method `Time.Day`. -/
def Time.Day (t : Time) : Int := t.date.2.2

/-- Left padding of `s` with the byte `c` up to `w` bytes. -/
def padLeft (w : Nat) (c : UInt8) (s : GoString) : GoString :=
  List.replicate (w - s.length) c ++ s

/-- The verb `%4d` of `fmt.Sprintf`: decimal, padded with spaces to width 4. -/
def fmtWidth4 (i : Int) : GoString := padLeft 4 32 (Itoa i)

/-- The verb `%.2d` of `fmt.Sprintf`: decimal with at least 2 digits, padded
with zeros after the sign. -/
def fmtPrec2 (i : Int) : GoString :=
  match i with
  | Int.ofNat n => padLeft 2 48 (decimal n)
  | Int.negSucc n => lit "-" ++ padLeft 2 48 (decimal (n + 1))

/-- The call `fmt.Sprintf("%4d-%.2d-%.2d", t.Year(), t.Month(), t.Day())`. -/
def fmtDate (t : Time) : GoString :=
  fmtWidth4 t.Year ++ lit "-" ++ fmtPrec2 t.Month ++ lit "-" ++ fmtPrec2 t.Day

/-! ## Data model -/

/-- The struct `Bugzilla`: the service handle. -/
structure Bugzilla where
  Endpoint : GoString
  AuthParams : Option (List (GoString × GoString))
  deriving DecidableEq

/-- The struct `AdvancedTuple` (the field `Type` is spelled `Type_`). -/
structure AdvancedTuple where
  Field : GoString
  Type_ : GoString
  Value : GoString
  deriving DecidableEq

/-- The struct `BugBuilder`. -/
structure BugBuilder where
  bz : Bugzilla
  ids : Slice Int
  fields : Slice GoString
  changedBefore : GoString
  changedAfter : GoString
  createdBefore : GoString
  createdAfter : GoString
  product : GoString
  component : GoString
  priority : GoString
  severity : GoString
  status : Slice GoString
  advanced : Slice AdvancedTuple
  deriving DecidableEq

/-- The constant `BUGZILLA_PRODUCTION_ENDPOINT`. -/
def BUGZILLA_PRODUCTION_ENDPOINT : GoString :=
  lit "https://api-dev.bugzilla.mozilla.org/latest"

/-- The function `NewBugzilla`. -/
def NewBugzilla : Bugzilla := { Endpoint := BUGZILLA_PRODUCTION_ENDPOINT, AuthParams := none }

/-- The method `Bugzilla.GetBugs`: every field not named in the composite
literal has its zero value. -/
def Bugzilla.GetBugs (bz : Bugzilla) : BugBuilder :=
  { bz := bz, ids := none, fields := some [lit "_default"],
    changedBefore := [], changedAfter := [], createdBefore := [], createdAfter := [],
    product := [], component := [], priority := [], severity := [],
    status := none, advanced := none }

/-! ## Configuration methods -/

/-- The method `BugBuilder.Id`. -/
def BugBuilder.Id (bb : BugBuilder) (id : Int) : BugBuilder :=
  { bb with ids := bb.ids.append id }

/-- The method `BugBuilder.Product`. -/
def BugBuilder.Product (bb : BugBuilder) (product : GoString) : BugBuilder :=
  { bb with product := product }

/-- The method `BugBuilder.Component`. -/
def BugBuilder.Component (bb : BugBuilder) (component : GoString) : BugBuilder :=
  { bb with component := component }

/-- The method `BugBuilder.Priority`. -/
def BugBuilder.Priority (bb : BugBuilder) (priority : GoString) : BugBuilder :=
  { bb with priority := priority }

/-- The method `BugBuilder.Severity`. -/
def BugBuilder.Severity (bb : BugBuilder) (severity : GoString) : BugBuilder :=
  { bb with severity := severity }

/-- The method `BugBuilder.Status`, variadic: one `append` per argument. -/
def BugBuilder.Status (bb : BugBuilder) (status : List GoString) : BugBuilder :=
  { bb with status := status.foldl Slice.append bb.status }

/-- The method `BugBuilder.IncludeAllFields`. -/
def BugBuilder.IncludeAllFields (bb : BugBuilder) : BugBuilder :=
  { bb with fields := some [lit "_all"] }

/-- The method `BugBuilder.IncludeField`. -/
def BugBuilder.IncludeField (bb : BugBuilder) (field : GoString) : BugBuilder :=
  { bb with fields := bb.fields.append field }

/-- The method `BugBuilder.IncludeFields`, variadic: one `append` per argument. -/
def BugBuilder.IncludeFields (bb : BugBuilder) (fields : List GoString) : BugBuilder :=
  { bb with fields := fields.foldl Slice.append bb.fields }

/-- The method `BugBuilder.IncludeComments`. -/
def BugBuilder.IncludeComments (bb : BugBuilder) : BugBuilder :=
  { bb with fields := bb.fields.append (lit "comments") }

/-- The method `BugBuilder.IncludeHistory`. -/
def BugBuilder.IncludeHistory (bb : BugBuilder) : BugBuilder :=
  { bb with fields := bb.fields.append (lit "history") }

/-- The method `BugBuilder.ChangedAfter`. -/
def BugBuilder.ChangedAfter (bb : BugBuilder) (changedAfter : GoString) : BugBuilder :=
  { bb with fields := bb.fields.append (lit "last_change_time"), changedAfter := changedAfter }

/-- The method `BugBuilder.CreatedToday`; `now` is the value of `time.Now()`
and `d` is 24 hours. -/
def BugBuilder.CreatedToday (bb : BugBuilder) (now : Time) : BugBuilder :=
  let before := now.Add 86400
  let after := now
  { bb with fields := bb.fields.append (lit "last_change_time"),
            createdBefore := fmtDate before, createdAfter := fmtDate after }

/-- The method `BugBuilder.ChangedToday`; `now` is the value of `time.Now()`
and `d` is 24 hours. -/
def BugBuilder.ChangedToday (bb : BugBuilder) (now : Time) : BugBuilder :=
  let before := now.Add 86400
  let after := now
  { bb with fields := bb.fields.append (lit "last_change_time"),
            changedBefore := fmtDate before, changedAfter := fmtDate after }

/-- The method `BugBuilder.Advanced`. -/
def BugBuilder.Advanced (bb : BugBuilder) (field typ3 value : GoString) : BugBuilder :=
  { bb with advanced := bb.advanced.append { Field := field, Type_ := typ3, Value := value } }

/-! ## The query string of `Execute` -/

/-- The guard `if len(query) > 0 { query += "&" }` that precedes a parameter. -/
def amp (query : GoString) : GoString :=
  if query.length > 0 then query ++ lit "&" else query

/-- The loops `for i, x := range xs { if i > 0 { query += "," }; query += f(x) }`
of `Execute`, started at index `i`. -/
def commaLoop {α : Type} (f : α → GoString) : Nat → List α → GoString → GoString
  | _, [], query => query
  | i, x :: xs, query =>
    commaLoop f (i + 1) xs ((if i > 0 then query ++ lit "," else query) ++ f x)

/-- The block of `Execute` guarded by `bb.ids != nil`. -/
def emitIds (bb : BugBuilder) (query : GoString) : GoString :=
  match bb.ids with
  | none => query
  | some ids => commaLoop Itoa 0 ids (amp query ++ lit "id=")

/-- The block of `Execute` guarded by `bb.fields != nil`. -/
def emitFields (bb : BugBuilder) (query : GoString) : GoString :=
  match bb.fields with
  | none => query
  | some fields => commaLoop QueryEscape 0 fields (amp query ++ lit "include_fields=")

/-- The block of `Execute` guarded by `bb.status != nil`. -/
def emitStatus (bb : BugBuilder) (query : GoString) : GoString :=
  match bb.status with
  | none => query
  | some status =>
    status.foldl (fun query status => amp query ++ (lit "status=" ++ QueryEscape status)) query

/-- The block of `Execute` guarded by
`len(bb.createdAfter) != 0 && len(bb.createdBefore) != 0`. -/
def emitCreated (bb : BugBuilder) (query : GoString) : GoString :=
  if bb.createdAfter.length ≠ 0 ∧ bb.createdBefore.length ≠ 0 then
    let query := amp query
    let query := query ++ (lit "changed_after=" ++ QueryEscape bb.changedAfter)
    query ++ (lit "&changed_before=" ++ QueryEscape bb.changedBefore)
  else query

/-- The block of `Execute` guarded by
`len(bb.changedAfter) != 0 && len(bb.changedBefore) != 0`, with its `else`. -/
def emitChanged (bb : BugBuilder) (query : GoString) : GoString :=
  if bb.changedAfter.length ≠ 0 ∧ bb.changedBefore.length ≠ 0 then
    let query := amp query
    let query := query ++ (lit "changed_after=" ++ QueryEscape bb.changedAfter)
    query ++ (lit "&changed_before=" ++ QueryEscape bb.changedBefore)
  else if bb.changedAfter.length > 0 then
    amp query ++ (lit "changed_after=" ++ QueryEscape bb.changedAfter)
  else query

/-- The block of `Execute` guarded by `len(bb.product) > 0`. -/
def emitProduct (bb : BugBuilder) (query : GoString) : GoString :=
  if bb.product.length > 0 then amp query ++ (lit "product=" ++ QueryEscape bb.product)
  else query

/-- The block of `Execute` guarded by `len(bb.component) > 0`. -/
def emitComponent (bb : BugBuilder) (query : GoString) : GoString :=
  if bb.component.length > 0 then amp query ++ (lit "component=" ++ QueryEscape bb.component)
  else query

/-- The block of `Execute` guarded by `len(bb.severity) > 0`. -/
def emitSeverity (bb : BugBuilder) (query : GoString) : GoString :=
  if bb.severity.length > 0 then amp query ++ (lit "severity=" ++ QueryEscape bb.severity)
  else query

/-- The block of `Execute` guarded by `len(bb.priority) > 0`. -/
def emitPriority (bb : BugBuilder) (query : GoString) : GoString :=
  if bb.priority.length > 0 then amp query ++ (lit "priority=" ++ QueryEscape bb.priority)
  else query

/-- The loop `for i, t := range bb.advanced` of `Execute`, started at index `i`:
three `query +=` statements per triple. -/
def advancedLoop : Nat → List AdvancedTuple → GoString → GoString
  | _, [], query => query
  | i, t :: ts, query =>
    let query := query ++ (lit "&field" ++ Itoa i ++ lit "-0-0=" ++ t.Field)
    let query := query ++ (lit "&type" ++ Itoa i ++ lit "-0-0=" ++ t.Type_)
    let query := query ++ (lit "&value" ++ Itoa i ++ lit "-0-0=" ++ t.Value)
    advancedLoop (i + 1) ts query

/-- The block of `Execute` guarded by `len(bb.advanced) > 0`. -/
def emitAdvanced (bb : BugBuilder) (query : GoString) : GoString :=
  if bb.advanced.elems.length > 0 then advancedLoop 0 bb.advanced.elems query else query

/-- The block of `Execute` guarded by `bb.bz.AuthParams != nil`. -/
def emitAuth (bb : BugBuilder) (query : GoString) : GoString :=
  match bb.bz.AuthParams with
  | none => query
  | some params =>
    params.foldl (fun query p => query ++ (lit "&" ++ p.1 ++ lit "=" ++ QueryEscape p.2)) query

/-- The value of the local variable `query` of `BugBuilder.Execute` when the URL
is formatted: the blocks of `Execute` run in source order from `query := ""`. -/
def BugBuilder.query (bb : BugBuilder) : GoString :=
  let query : GoString := []
  let query := emitIds bb query
  let query := emitFields bb query
  let query := emitStatus bb query
  let query := emitCreated bb query
  let query := emitChanged bb query
  let query := emitProduct bb query
  let query := emitComponent bb query
  let query := emitSeverity bb query
  let query := emitPriority bb query
  let query := emitAdvanced bb query
  emitAuth bb query

/-- The URL `fmt.Sprintf("%s/bug?%s", bb.bz.Endpoint, query)` that `Execute`
requests. -/
def BugBuilder.url (bb : BugBuilder) : GoString :=
  bb.bz.Endpoint ++ lit "/bug?" ++ bb.query

/-! ## Parameter lists: the query as a join -/

/-- The parameters joined by `&` separators, none before the first. -/
def joinAmp (params : List GoString) : GoString := List.intercalate (lit "&") params

/-- The values joined by `,`. -/
def joinComma (values : List GoString) : GoString := List.intercalate (lit ",") values

/-- The parameter the `bb.ids != nil` block emits. -/
def idParams (bb : BugBuilder) : List GoString :=
  match bb.ids with
  | none => []
  | some ids => [lit "id=" ++ joinComma (ids.map Itoa)]

/-- The parameter the `bb.fields != nil` block emits. -/
def fieldParams (bb : BugBuilder) : List GoString :=
  match bb.fields with
  | none => []
  | some fields => [lit "include_fields=" ++ joinComma (fields.map QueryEscape)]

/-- The parameters the `bb.status != nil` block emits. -/
def statusParams (bb : BugBuilder) : List GoString :=
  bb.status.elems.map (fun status => lit "status=" ++ QueryEscape status)

/-- The pair `changed_after=`, `changed_before=` with the values of
`changedAfter` and `changedBefore`. -/
def changedPair (bb : BugBuilder) : List GoString :=
  [lit "changed_after=" ++ QueryEscape bb.changedAfter,
   lit "changed_before=" ++ QueryEscape bb.changedBefore]

/-- The parameters emitted by the block that tests `createdAfter` and
`createdBefore`. -/
def createdParams (bb : BugBuilder) : List GoString :=
  if bb.createdAfter ≠ [] ∧ bb.createdBefore ≠ [] then changedPair bb else []

/-- The parameters emitted by the block that tests `changedAfter` and
`changedBefore`. -/
def changedParams (bb : BugBuilder) : List GoString :=
  if bb.changedAfter ≠ [] ∧ bb.changedBefore ≠ [] then changedPair bb
  else if bb.changedAfter ≠ [] then [lit "changed_after=" ++ QueryEscape bb.changedAfter]
  else []

/-- A parameter `name=QueryEscape(value)`, emitted only for a non-empty value. -/
def optParam (name : String) (value : GoString) : List GoString :=
  if value ≠ [] then [lit name ++ lit "=" ++ QueryEscape value] else []

/-- The parameters for product, component, severity and priority, in the order
of their blocks in `Execute`. -/
def namedParams (bb : BugBuilder) : List GoString :=
  optParam "product" bb.product ++ optParam "component" bb.component
    ++ optParam "severity" bb.severity ++ optParam "priority" bb.priority

/-- The three parameters of the advanced triple at index `i`. -/
def tripleParams (i : Nat) (t : AdvancedTuple) : List GoString :=
  [lit "field" ++ Itoa i ++ lit "-0-0=" ++ t.Field,
   lit "type" ++ Itoa i ++ lit "-0-0=" ++ t.Type_,
   lit "value" ++ Itoa i ++ lit "-0-0=" ++ t.Value]

/-- The parameters of the advanced triples from index `i` on, in index order. -/
def advancedParams : Nat → List AdvancedTuple → List GoString
  | _, [] => []
  | i, t :: ts => tripleParams i t ++ advancedParams (i + 1) ts

/-- The text `&field<i>-0-0=<Field>&type<i>-0-0=<Type>&value<i>-0-0=<Value>` of
the advanced triple at index `i`. -/
def tripleText (i : Nat) (t : AdvancedTuple) : GoString :=
  lit "&field" ++ Itoa i ++ lit "-0-0=" ++ t.Field
    ++ lit "&type" ++ Itoa i ++ lit "-0-0=" ++ t.Type_
    ++ lit "&value" ++ Itoa i ++ lit "-0-0=" ++ t.Value

/-- The texts of the advanced triples from index `i` on, one after the other. -/
def advancedText : Nat → List AdvancedTuple → GoString
  | _, [] => []
  | i, t :: ts => tripleText i t ++ advancedText (i + 1) ts

/-- The auth parameters, each preceded by `&`, in the order of the mapping. -/
def authText (bz : Bugzilla) : GoString :=
  match bz.AuthParams with
  | none => []
  | some params => params.flatMap (fun p => lit "&" ++ p.1 ++ lit "=" ++ QueryEscape p.2)

/-- The parameters emitted before the product block: ids, fields, statuses and
the two date blocks. -/
def leadParams (bb : BugBuilder) : List GoString :=
  idParams bb ++ fieldParams bb ++ statusParams bb ++ createdParams bb ++ changedParams bb

/-- Every parameter of the list is a non-empty string. -/
def AllNonempty (params : List GoString) : Prop := ∀ p ∈ params, p ≠ []

/-! ## The parameter ordering as the specification words it -/

/-- The date clause in the specification's words: `changed_after=` then
`changed_before=` when changedAfter and changedBefore are both non-empty, only
`changed_after=` when changedAfter alone is non-empty, nothing otherwise. -/
def specDateClause (bb : BugBuilder) : List GoString :=
  if bb.changedAfter ≠ [] ∧ bb.changedBefore ≠ [] then
    [lit "changed_after=" ++ QueryEscape bb.changedAfter,
     lit "changed_before=" ++ QueryEscape bb.changedBefore]
  else if bb.changedAfter ≠ [] ∧ bb.changedBefore = [] then
    [lit "changed_after=" ++ QueryEscape bb.changedAfter]
  else []

/-- The specification's parameter list after the `id=` parameter: the
`include_fields=` parameter, one `status=` parameter per status value, the date
clause, `product=`, `component=`, `severity=`, `priority=` for each non-empty
one, then the three parameters of each advanced triple in index order. -/
def specParamsAfterId (bb : BugBuilder) : List GoString :=
  [lit "include_fields=" ++ joinComma (bb.fields.elems.map QueryEscape)]
    ++ bb.status.elems.map (fun status => lit "status=" ++ QueryEscape status)
    ++ specDateClause bb
    ++ (if bb.product ≠ [] then [lit "product=" ++ QueryEscape bb.product] else [])
    ++ (if bb.component ≠ [] then [lit "component=" ++ QueryEscape bb.component] else [])
    ++ (if bb.severity ≠ [] then [lit "severity=" ++ QueryEscape bb.severity] else [])
    ++ (if bb.priority ≠ [] then [lit "priority=" ++ QueryEscape bb.priority] else [])
    ++ advancedParams 0 bb.advanced.elems

/-- The specification's parameter list: the `id=` parameter if there are any
ids, then the rest. -/
def specParams (bb : BugBuilder) : List GoString :=
  (if bb.ids.elems ≠ [] then [lit "id=" ++ joinComma (bb.ids.elems.map Itoa)] else [])
    ++ specParamsAfterId bb

/-! ## The parameters of a query string -/

/-- The parameters of a query string: the pieces between the `&` separators. -/
def queryParams (query : GoString) : List GoString := query.splitOn 38

/-- The query string has a parameter of this name: one of its pieces begins
with `name=`. -/
def HasParam (name : String) (query : GoString) : Prop :=
  ∃ p ∈ queryParams query, (lit name ++ lit "=") <+: p

/-- A parameter that holds no `&` and does not begin with `include_fields=`. -/
def PlainParam (p : GoString) : Prop :=
  (38 : UInt8) ∉ p ∧ ¬ (lit "include_fields" ++ lit "=") <+: p

/-! ## Records -/

/-- The method `Time.Before`: the instant `t` is earlier than the instant `u`. -/
def Time.Before (t u : Time) : Bool :=
  decide (t.unix < u.unix ∨ (t.unix = u.unix ∧ t.nsec < u.nsec))

/-- A value of type `interface{}` as `encoding/json` stores it: `nil` (the key
is absent or its value is JSON `null`), `bool`, `float64` (a JSON number; the
finite values of `float64` are rational numbers), `string`, `[]interface{}`
and `map[string]interface{}`. -/
inductive JSONValue where
  | null : JSONValue
  | bool (b : Bool) : JSONValue
  | number (v : ℚ) : JSONValue
  | string (s : GoString) : JSONValue
  | array (elems : List JSONValue) : JSONValue
  | object (members : List (GoString × JSONValue)) : JSONValue

/-- The least value of Go's `int` (64 bits). -/
def minInt : Int := -9223372036854775808

/-- The greatest value of Go's `int` (64 bits). -/
def maxInt : Int := 9223372036854775807

/-- The platform the program runs on, for the one thing Go leaves to it here:
what the conversion `int(v)` gives for a `float64` that `int` cannot hold. -/
structure GoPlatform where
  outOfRange : ℚ → Int

/-- The platform amd64: an out-of-range conversion gives the least `int`. -/
def amd64 : GoPlatform := { outOfRange := fun _ => minInt }

/-- The conversion `int(v)` of a `float64`: the fraction is discarded
(truncation towards zero); when the truncated value is outside the range of
`int`, the result is the one of the platform, a value of `int` as well. -/
def float64ToInt (p : GoPlatform) (v : ℚ) : Int :=
  let t := Int.tdiv v.num v.den
  if minInt ≤ t ∧ t ≤ maxInt then t
  else (p.outOfRange v - minInt) % 18446744073709551616 + minInt

/-- The struct `BugCreator`. -/
structure BugCreator where
  Name : GoString
  RealName : GoString

/-- The struct `BugAssignedTo`. -/
structure BugAssignedTo where
  Name : GoString
  RealName : GoString

/-- The struct `BugComment`. -/
structure BugComment where
  CreationTime : Time
  Creator : BugCreator
  Id : Int
  IsPrivate : Bool
  Text : GoString

/-- The struct `BugChange`. -/
structure BugChange where
  Added : GoString
  Removed : GoString
  FieldName : GoString

/-- The struct `BugChanger`. -/
structure BugChanger where
  Name : GoString
  RealName : GoString

/-- The struct `BugChangeSet`. -/
structure BugChangeSet where
  ChangeTime : Time
  Changer : BugChanger
  Changes : Slice BugChange

/-- The struct `Bug`. -/
structure Bug where
  Id : Int
  Alias : GoString
  Blocks_ : JSONValue
  Blocks : Slice Int
  DependsOn_ : JSONValue
  DependsOn : Slice Int
  Keywords : Slice GoString
  Platform : GoString
  Resolution : GoString
  URL : GoString
  Version : GoString
  Whiteboard : GoString
  Status : GoString
  Summary : GoString
  Component : GoString
  Classification : GoString
  Product : GoString
  Priority : GoString
  Severity : GoString
  Creator : BugCreator
  AssignedTo : BugAssignedTo
  CreationTime : Time
  LastChangeTime : Time
  Comments : Slice BugComment
  History : Slice BugChangeSet

/-- The method `Bug.ParseBlocks`: `ids` starts as `make([]int, 0)`; when
`Blocks_` holds a `[]interface{}`, every element of dynamic type `float64` is
appended as `int(v)`. -/
def Bug.ParseBlocks (p : GoPlatform) (b : Bug) : Slice Int :=
  let ids : Slice Int := some []
  match b.Blocks_ with
  | JSONValue.array w =>
    w.foldl (fun ids v =>
      match v with
      | JSONValue.number v => ids.append (float64ToInt p v)
      | _ => ids) ids
  | _ => ids

/-- The method `Bug.ParseDependsOn`: `ids` starts as `make([]int, 0)`; when
`DependsOn_` holds a `[]interface{}`, every element of dynamic type `float64`
is appended as `int(v)`. -/
def Bug.ParseDependsOn (p : GoPlatform) (b : Bug) : Slice Int :=
  let ids : Slice Int := some []
  match b.DependsOn_ with
  | JSONValue.array w =>
    w.foldl (fun ids v =>
      match v with
      | JSONValue.number v => ids.append (float64ToInt p v)
      | _ => ids) ids
  | _ => ids

/-- The method `Bug.Postprocess`: two assignments, one after the other. -/
def Bug.Postprocess (p : GoPlatform) (b : Bug) : Bug :=
  let b := { b with Blocks := b.ParseBlocks p }
  { b with DependsOn := b.ParseDependsOn p }

/-- The struct `BugResponse`: `Bugs` stays `nil` when the `bugs` key is missing. -/
structure BugResponse where
  Bugs : Slice Bug

/-- The numeric elements of a JSON sequence, each coerced to an integer, in
their original order; every other element is skipped. -/
def numericIds (p : GoPlatform) (elems : List JSONValue) : List Int :=
  elems.filterMap (fun v =>
    match v with
    | JSONValue.number v => some (float64ToInt p v)
    | _ => none)

/-! ## The request of `Execute` and its result -/

/-- A Go `error` value. -/
structure GoError where
  message : GoString
  deriving DecidableEq

/-- The `*http.Response` of a successful `http.Get`, with what
`ioutil.ReadAll(res.Body)` returns for it. -/
structure Response where
  readAll : Except GoError GoString

/-- The collaborators of `Execute`: `http.Get` for a URL, and `json.Unmarshal`
of a body into a zero `BugResponse`. -/
structure World where
  httpGet : GoString → Except GoError Response
  jsonUnmarshal : GoString → Except GoError BugResponse

/-- The external calls `Execute` makes, for the record of a run. -/
inductive Step where
  | httpGet (url : GoString) : Step
  | readAll : Step
  | jsonUnmarshal (body : GoString) : Step
  | closeBody : Step
  deriving DecidableEq

/-- What a call of `Execute` returns, `([]Bug, error)`, with the external calls
it made, in order. -/
structure ExecuteResult where
  bugs : Slice Bug
  err : Option GoError
  steps : List Step

/-- The loop `for i := 0; i < len(bugResponse.Bugs); i++ { bugResponse.Bugs[i].Postprocess() }`
with `remaining` iterations left at index `i`. -/
def postprocessLoop (p : GoPlatform) : Nat → Nat → List Bug → List Bug
  | 0, _, bugs => bugs
  | remaining + 1, i, bugs =>
    postprocessLoop p remaining (i + 1) (bugs.modify (Bug.Postprocess p) i)

/-- The loop of `Execute` over a slice: a `nil` slice has length 0 and stays `nil`. -/
def postprocessAll (p : GoPlatform) (bugs : Slice Bug) : Slice Bug :=
  match bugs with
  | none => none
  | some elems => some (postprocessLoop p elems.length 0 elems)

/-- The method `BugBuilder.Execute`: the query is built and the URL requested;
an error of `http.Get`, `ioutil.ReadAll` or `json.Unmarshal` is returned at
once with a `nil` slice; the deferred `res.Body.Close()` runs on return once
`http.Get` has succeeded. -/
def BugBuilder.Execute (p : GoPlatform) (w : World) (bb : BugBuilder) : ExecuteResult :=
  let u := bb.url
  match w.httpGet u with
  | Except.error err => { bugs := none, err := some err, steps := [Step.httpGet u] }
  | Except.ok res =>
    match res.readAll with
    | Except.error err =>
      { bugs := none, err := some err, steps := [Step.httpGet u, Step.readAll, Step.closeBody] }
    | Except.ok body =>
      match w.jsonUnmarshal body with
      | Except.error err =>
        { bugs := none, err := some err,
          steps := [Step.httpGet u, Step.readAll, Step.jsonUnmarshal body, Step.closeBody] }
      | Except.ok bugResponse =>
        { bugs := postprocessAll p bugResponse.Bugs, err := none,
          steps := [Step.httpGet u, Step.readAll, Step.jsonUnmarshal body, Step.closeBody] }

/-- The zero value of `time.Time`: January 1, year 1, 00:00:00 UTC. -/
def zeroTime : Time := { unix := -62135596800, zone := fun _ => 0 }

/-- The zero value of the struct `Bug`. -/
def zeroBug : Bug :=
  { Id := 0, Alias := [], Blocks_ := JSONValue.null, Blocks := none,
    DependsOn_ := JSONValue.null, DependsOn := none, Keywords := none, Platform := [],
    Resolution := [], URL := [], Version := [], Whiteboard := [], Status := [], Summary := [],
    Component := [], Classification := [], Product := [], Priority := [], Severity := [],
    Creator := { Name := [], RealName := [] }, AssignedTo := { Name := [], RealName := [] },
    CreationTime := zeroTime, LastChangeTime := zeroTime, Comments := none, History := none }

/-! ## Sequences of configuration calls -/

/-- A configuration call on a builder, with its arguments; for `CreatedToday`
and `ChangedToday` the argument is the value `time.Now()` returns in the call. -/
inductive Call where
  | Id (id : Int) : Call
  | Product (product : GoString) : Call
  | Component (component : GoString) : Call
  | Priority (priority : GoString) : Call
  | Severity (severity : GoString) : Call
  | Status (status : List GoString) : Call
  | IncludeAllFields : Call
  | IncludeField (field : GoString) : Call
  | IncludeFields (fields : List GoString) : Call
  | IncludeComments : Call
  | IncludeHistory : Call
  | ChangedAfter (changedAfter : GoString) : Call
  | CreatedToday (now : Time) : Call
  | ChangedToday (now : Time) : Call
  | Advanced (field typ3 value : GoString) : Call

/-- The builder after the call. -/
def Call.apply (c : Call) (bb : BugBuilder) : BugBuilder :=
  match c with
  | Call.Id id => bb.Id id
  | Call.Product product => bb.Product product
  | Call.Component component => bb.Component component
  | Call.Priority priority => bb.Priority priority
  | Call.Severity severity => bb.Severity severity
  | Call.Status status => bb.Status status
  | Call.IncludeAllFields => bb.IncludeAllFields
  | Call.IncludeField field => bb.IncludeField field
  | Call.IncludeFields fields => bb.IncludeFields fields
  | Call.IncludeComments => bb.IncludeComments
  | Call.IncludeHistory => bb.IncludeHistory
  | Call.ChangedAfter changedAfter => bb.ChangedAfter changedAfter
  | Call.CreatedToday now => bb.CreatedToday now
  | Call.ChangedToday now => bb.ChangedToday now
  | Call.Advanced field typ3 value => bb.Advanced field typ3 value

/-- The kind of a call: which method is called. -/
def Call.kind (c : Call) : Nat :=
  match c with
  | Call.Id _ => 0
  | Call.Product _ => 1
  | Call.Component _ => 2
  | Call.Priority _ => 3
  | Call.Severity _ => 4
  | Call.Status _ => 5
  | Call.IncludeAllFields => 6
  | Call.IncludeField _ => 7
  | Call.IncludeFields _ => 8
  | Call.IncludeComments => 9
  | Call.IncludeHistory => 10
  | Call.ChangedAfter _ => 11
  | Call.CreatedToday _ => 12
  | Call.ChangedToday _ => 13
  | Call.Advanced _ _ _ => 14

/-- The calls `Id`, `Product`, `Component`, `Priority`, `Severity`, `Status`,
`IncludeField`, `IncludeComments`, `IncludeHistory`, `ChangedAfter` and
`Advanced`. -/
def Call.accumulating (c : Call) : Bool :=
  match c with
  | Call.Id _ => true
  | Call.Product _ => true
  | Call.Component _ => true
  | Call.Priority _ => true
  | Call.Severity _ => true
  | Call.Status _ => true
  | Call.IncludeField _ => true
  | Call.IncludeComments => true
  | Call.IncludeHistory => true
  | Call.ChangedAfter _ => true
  | Call.Advanced _ _ _ => true
  | _ => false

/-- The call appends to the requested-field list. -/
def Call.appendsField (c : Call) : Bool :=
  match c with
  | Call.IncludeField _ => true
  | Call.IncludeFields _ => true
  | Call.IncludeComments => true
  | Call.IncludeHistory => true
  | Call.ChangedAfter _ => true
  | Call.CreatedToday _ => true
  | Call.ChangedToday _ => true
  | _ => false

/-- The builder after a finite sequence of calls, first call first. -/
def runCalls (calls : List Call) (bb : BugBuilder) : BugBuilder :=
  calls.foldl (fun bb c => c.apply bb) bb

/-- The builder is obtained from `GetBugs` of some service handle by a finite
sequence of configuration calls. -/
def Reachable (bb : BugBuilder) : Prop :=
  ∃ (bz : Bugzilla) (calls : List Call), bb = runCalls calls bz.GetBugs

/-! ## The date format as the specification words it -/

/-- The ASCII digit for the last decimal digit of `n`. -/
def digitByte (n : Nat) : UInt8 := UInt8.ofNat (48 + n % 10)

/-- A calendar date as zero-padded `YYYY-MM-DD`: four digits, `-`, two digits,
`-`, two digits; exactly 10 characters. -/
def isoDate (year month day : Int) : GoString :=
  [digitByte (year.toNat / 1000), digitByte (year.toNat / 100), digitByte (year.toNat / 10),
   digitByte year.toNat, 45,
   digitByte (month.toNat / 10), digitByte month.toNat, 45,
   digitByte (day.toNat / 10), digitByte day.toNat]

/-! ## Occurrences of a text in the query -/

/-- The number of positions of `s` at which the text `pat` occurs. -/
def occurrences (pat s : GoString) : Nat :=
  (s.tails.filter (fun t => decide (pat <+: t))).length

/-- The text `changed_after=QueryEscape(changedAfter)&changed_before=QueryEscape(changedBefore)`. -/
def changedPairText (bb : BugBuilder) : GoString :=
  lit "changed_after=" ++ QueryEscape bb.changedAfter
    ++ lit "&changed_before=" ++ QueryEscape bb.changedBefore

/-! ## The result sorter -/

/-- The variable `LastChangeTime`: the ordering predicate by last-change time. -/
def LastChangeTime (b1 b2 : Bug) : Bool := b1.LastChangeTime.Before b2.LastChangeTime

/-- The struct `bugSorter` (the field `by` is spelled `by_`); `bugs` holds the
elements of the slice, which the sorter rearranges in place. -/
structure bugSorter where
  bugs : List Bug
  by_ : Bug → Bug → Bool

/-- The method `bugSorter.Len`. -/
def bugSorter.Len (s : bugSorter) : Nat := s.bugs.length

/-- The method `bugSorter.Swap`; an index outside the slice panics and swaps
nothing. -/
def bugSorter.Swap (s : bugSorter) (i j : Nat) : bugSorter :=
  match s.bugs[i]?, s.bugs[j]? with
  | some bi, some bj => { s with bugs := (s.bugs.set i bj).set j bi }
  | _, _ => s

/-- The method `bugSorter.Less`; an index outside the slice panics. -/
def bugSorter.Less (s : bugSorter) (i j : Nat) : Bool :=
  match s.bugs[i]?, s.bugs[j]? with
  | some bi, some bj => s.by_ bi bj
  | _, _ => false

/-- The inner loop of `insertionSort` in Go's package `sort`, from index `j`
down: `for j := i; j > a && data.Less(j, j-1); j-- { data.Swap(j, j-1) }`
with `a = 0`. -/
def insertionInner : Nat → bugSorter → bugSorter
  | 0, s => s
  | j + 1, s => if s.Less (j + 1) j then insertionInner j (s.Swap (j + 1) j) else s

/-- The outer loop of `insertionSort`, `for i := a + 1; i < b; i++`, with
`remaining` iterations left at index `i`. -/
def insertionOuter : Nat → Nat → bugSorter → bugSorter
  | 0, _, s => s
  | remaining + 1, i, s => insertionOuter remaining (i + 1) (insertionInner i s)

/-- The function `sort.Sort` of Go's standard library, through the methods
`Len`, `Less` and `Swap` of the sorter: `insertionSort(data, 0, n)`, the routine
with which the library sorts a short slice. -/
def sortSort (s : bugSorter) : bugSorter :=
  let n := s.Len
  insertionOuter (n - 1) 1 s

/-- The method `By.Sort`: the slice after `sort.Sort(sorter)`; a `nil` slice
has no elements and stays `nil`. -/
def By.Sort (by_ : Bug → Bug → Bool) (bugs : Slice Bug) : Slice Bug :=
  match bugs with
  | none => none
  | some elems => some (sortSort { bugs := elems, by_ := by_ }).bugs

/-! ## All the parameters of the query -/

/-- The auth parameters `<name>=QueryEscape(<value>)`, in the order of the
mapping. -/
def authParamList (bz : Bugzilla) : List GoString :=
  match bz.AuthParams with
  | none => []
  | some params => params.map (fun p => p.1 ++ lit "=" ++ QueryEscape p.2)

/-- The parameters `Execute` emits, in the order of its blocks. -/
def emittedParams (bb : BugBuilder) : List GoString :=
  leadParams bb ++ namedParams bb ++ advancedParams 0 bb.advanced.elems ++ authParamList bb.bz

/-! ## Theorems -/

/-! ## Lemmas on joining and on the loops -/

theorem intercalate_cons_cons {α : Type} (sep x y : List α) (ys : List (List α)) :
    List.intercalate sep (x :: y :: ys) = x ++ (sep ++ List.intercalate sep (y :: ys)) := by
  simp [List.intercalate]

theorem intercalate_cons_flatMap {α : Type} (sep x : List α) (xs : List (List α)) :
    List.intercalate sep (x :: xs) = x ++ xs.flatMap (fun y => sep ++ y) := by
  induction xs generalizing x with
  | nil => simp [List.intercalate]
  | cons y ys ih => rw [intercalate_cons_cons, ih y]; simp

theorem intercalate_append_flatMap {α : Type} (sep x : List α) (xs ys : List (List α)) :
    List.intercalate sep (x :: xs ++ ys)
      = List.intercalate sep (x :: xs) ++ ys.flatMap (fun y => sep ++ y) := by
  rw [show x :: xs ++ ys = x :: (xs ++ ys) from rfl, intercalate_cons_flatMap,
    intercalate_cons_flatMap]
  simp

theorem intercalate_ne_nil {α : Type} (sep x : List α) (xs : List (List α)) (hx : x ≠ []) :
    List.intercalate sep (x :: xs) ≠ [] := by
  rw [intercalate_cons_flatMap]
  simp [hx]

theorem lit_amp : lit "&" = [38] := by decide

theorem amp_nil : amp [] = [] := by simp [amp]

theorem amp_of_ne_nil (query : GoString) (h : query ≠ []) : amp query = query ++ lit "&" := by
  have : query.length > 0 := List.length_pos.mpr h
  simp [amp, this]

theorem commaLoop_succ {α : Type} (f : α → GoString) (i : Nat) (xs : List α)
    (query : GoString) :
    commaLoop f (i + 1) xs query = query ++ xs.flatMap (fun x => lit "," ++ f x) := by
  induction xs generalizing i query with
  | nil => simp [commaLoop]
  | cons x xs ih => simp [commaLoop, ih]

theorem commaLoop_zero {α : Type} (f : α → GoString) (x : α) (xs : List α)
    (query : GoString) :
    commaLoop f 0 (x :: xs) query
      = query ++ List.intercalate (lit ",") ((x :: xs).map f) := by
  simp [commaLoop, commaLoop_succ, intercalate_cons_flatMap, List.flatMap_def, List.map_map,
    Function.comp_def]

theorem lit_append_ne_nil (s : String) (h : lit s ≠ []) (v : GoString) : lit s ++ v ≠ [] := by
  simp [h]

theorem joinAmp_nil : joinAmp [] = [] := by simp [joinAmp, List.intercalate]

theorem joinAmp_eq_nil_iff (params : List GoString) (h : AllNonempty params) :
    joinAmp params = [] ↔ params = [] := by
  cases params with
  | nil => simp [joinAmp_nil]
  | cons p ps =>
    have hp : p ≠ [] := h p (by simp)
    simp [joinAmp, intercalate_ne_nil _ p ps hp]

theorem joinAmp_snoc (params : List GoString) (h : AllNonempty params) (p : GoString) :
    amp (joinAmp params) ++ p = joinAmp (params ++ [p]) := by
  cases params with
  | nil => simp [joinAmp, List.intercalate, amp]
  | cons x xs =>
    have hx : x ≠ [] := h x (by simp)
    have hne : joinAmp (x :: xs) ≠ [] := intercalate_ne_nil _ x xs hx
    rw [amp_of_ne_nil _ hne]
    simp only [joinAmp]
    rw [intercalate_append_flatMap]
    simp

theorem AllNonempty.append {ps qs : List GoString} (hp : AllNonempty ps) (hq : AllNonempty qs) :
    AllNonempty (ps ++ qs) := by
  intro p hmem
  rcases List.mem_append.mp hmem with h | h
  · exact hp p h
  · exact hq p h

theorem foldl_amp (params : List GoString) (h : AllNonempty params) (ps : List GoString)
    (hps : AllNonempty ps) :
    ps.foldl (fun query p => amp query ++ p) (joinAmp params) = joinAmp (params ++ ps) := by
  induction ps generalizing params with
  | nil => simp
  | cons p ps ih =>
    have hp : p ≠ [] := hps p (by simp)
    have hrest : AllNonempty ps := fun q hq => hps q (by simp [hq])
    have hsnoc : AllNonempty (params ++ [p]) :=
      h.append (fun q hq => by simp at hq; simpa [hq] using hp)
    simp only [List.foldl_cons]
    rw [joinAmp_snoc params h p, ih (params ++ [p]) hsnoc hrest]
    simp

theorem commaLoop_eq {α : Type} (f : α → GoString) (xs : List α) (query : GoString) :
    commaLoop f 0 xs query = query ++ joinComma (xs.map f) := by
  cases xs with
  | nil => simp [commaLoop, joinComma, List.intercalate]
  | cons x xs => rw [commaLoop_zero]; rfl

theorem allNonempty_nil : AllNonempty [] := by
  intro p hp; simp at hp

theorem allNonempty_singleton (p : GoString) (h : p ≠ []) : AllNonempty [p] := by
  intro q hq; simp at hq; simpa [hq] using h

theorem allNonempty_idParams (bb : BugBuilder) : AllNonempty (idParams bb) := by
  unfold idParams
  cases bb.ids with
  | none => exact allNonempty_nil
  | some ids => exact allNonempty_singleton _ (lit_append_ne_nil _ (by decide) _)

theorem allNonempty_fieldParams (bb : BugBuilder) : AllNonempty (fieldParams bb) := by
  unfold fieldParams
  cases bb.fields with
  | none => exact allNonempty_nil
  | some fields => exact allNonempty_singleton _ (lit_append_ne_nil _ (by decide) _)

theorem allNonempty_statusParams (bb : BugBuilder) : AllNonempty (statusParams bb) := by
  intro p hp
  simp only [statusParams, List.mem_map] at hp
  obtain ⟨s, _, rfl⟩ := hp
  exact lit_append_ne_nil _ (by decide) _

theorem allNonempty_changedPair (bb : BugBuilder) : AllNonempty (changedPair bb) := by
  intro p hp
  simp only [changedPair, List.mem_cons, List.mem_singleton, List.not_mem_nil, or_false] at hp
  rcases hp with rfl | rfl <;> exact lit_append_ne_nil _ (by decide) _

theorem allNonempty_createdParams (bb : BugBuilder) : AllNonempty (createdParams bb) := by
  unfold createdParams
  split
  · exact allNonempty_changedPair bb
  · exact allNonempty_nil

theorem allNonempty_changedParams (bb : BugBuilder) : AllNonempty (changedParams bb) := by
  unfold changedParams
  split
  · exact allNonempty_changedPair bb
  · split
    · exact allNonempty_singleton _ (lit_append_ne_nil _ (by decide) _)
    · exact allNonempty_nil

theorem allNonempty_optParam (name : String) (value : GoString) :
    AllNonempty (optParam name value) := by
  unfold optParam
  split
  · have heq : lit "=" ≠ [] := by decide
    exact allNonempty_singleton _ (by simp [heq])
  · exact allNonempty_nil

theorem allNonempty_namedParams (bb : BugBuilder) : AllNonempty (namedParams bb) := by
  unfold namedParams
  exact (((allNonempty_optParam _ _).append (allNonempty_optParam _ _)).append
    (allNonempty_optParam _ _)).append (allNonempty_optParam _ _)

theorem allNonempty_leadParams (bb : BugBuilder) : AllNonempty (leadParams bb) := by
  unfold leadParams
  exact ((((allNonempty_idParams bb).append (allNonempty_fieldParams bb)).append
    (allNonempty_statusParams bb)).append (allNonempty_createdParams bb)).append
    (allNonempty_changedParams bb)

theorem length_ne_zero_iff (s : GoString) : s.length ≠ 0 ↔ s ≠ [] := by
  simp

theorem length_pos_iff (s : GoString) : s.length > 0 ↔ s ≠ [] := by
  simp [List.length_pos]

theorem emitIds_join (bb : BugBuilder) (params : List GoString) (h : AllNonempty params) :
    emitIds bb (joinAmp params) = joinAmp (params ++ idParams bb) := by
  unfold emitIds idParams
  cases bb.ids with
  | none => simp
  | some ids =>
    simp only []
    rw [commaLoop_eq, List.append_assoc, joinAmp_snoc params h]

theorem emitFields_join (bb : BugBuilder) (params : List GoString) (h : AllNonempty params) :
    emitFields bb (joinAmp params) = joinAmp (params ++ fieldParams bb) := by
  unfold emitFields fieldParams
  cases bb.fields with
  | none => simp
  | some fields =>
    simp only []
    rw [commaLoop_eq, List.append_assoc, joinAmp_snoc params h]

theorem emitStatus_join (bb : BugBuilder) (params : List GoString) (h : AllNonempty params) :
    emitStatus bb (joinAmp params) = joinAmp (params ++ statusParams bb) := by
  have key : ∀ (status : List GoString),
      status.foldl (fun query status => amp query ++ (lit "status=" ++ QueryEscape status))
        (joinAmp params)
      = joinAmp (params ++ status.map (fun status => lit "status=" ++ QueryEscape status)) := by
    intro status
    have hs : AllNonempty (status.map (fun status => lit "status=" ++ QueryEscape status)) := by
      intro p hp
      simp only [List.mem_map] at hp
      obtain ⟨s, _, rfl⟩ := hp
      exact lit_append_ne_nil _ (by decide) _
    rw [← foldl_amp params h _ hs, List.foldl_map]
  unfold emitStatus statusParams
  cases hst : bb.status with
  | none => simp [Slice.elems]
  | some status => simpa [Slice.elems] using key status

theorem emit_pair (bb : BugBuilder) (params : List GoString) (h : AllNonempty params) :
    amp (joinAmp params) ++ (lit "changed_after=" ++ QueryEscape bb.changedAfter)
        ++ (lit "&changed_before=" ++ QueryEscape bb.changedBefore)
      = joinAmp (params ++ changedPair bb) := by
  rw [← foldl_amp params h _ (allNonempty_changedPair bb)]
  simp only [changedPair, List.foldl_cons, List.foldl_nil]
  rw [joinAmp_snoc params h]
  have hne : joinAmp (params ++ [lit "changed_after=" ++ QueryEscape bb.changedAfter]) ≠ [] := by
    rw [Ne, joinAmp_eq_nil_iff _
      (h.append (allNonempty_singleton _ (lit_append_ne_nil _ (by decide) _)))]
    simp
  rw [amp_of_ne_nil _ hne]
  have : lit "&changed_before=" = lit "&" ++ lit "changed_before=" := by decide
  rw [this]
  simp

theorem emitCreated_join (bb : BugBuilder) (params : List GoString) (h : AllNonempty params) :
    emitCreated bb (joinAmp params) = joinAmp (params ++ createdParams bb) := by
  unfold emitCreated createdParams
  simp only [length_ne_zero_iff]
  split
  · exact emit_pair bb params h
  · simp

theorem emitChanged_join (bb : BugBuilder) (params : List GoString) (h : AllNonempty params) :
    emitChanged bb (joinAmp params) = joinAmp (params ++ changedParams bb) := by
  unfold emitChanged changedParams
  simp only [length_ne_zero_iff, length_pos_iff]
  split
  · exact emit_pair bb params h
  · split
    · exact joinAmp_snoc params h _
    · simp

theorem emitOpt_join (name : String) (value : GoString)
    (params : List GoString) (h : AllNonempty params) :
    (if value.length > 0 then amp (joinAmp params) ++ (lit name ++ lit "=" ++ QueryEscape value)
      else joinAmp params)
      = joinAmp (params ++ optParam name value) := by
  unfold optParam
  simp only [length_pos_iff]
  split
  · exact joinAmp_snoc params h _
  · simp

theorem emitProduct_join (bb : BugBuilder) (params : List GoString) (h : AllNonempty params) :
    emitProduct bb (joinAmp params) = joinAmp (params ++ optParam "product" bb.product) := by
  rw [← emitOpt_join "product" bb.product params h]
  have : lit "product=" = lit "product" ++ lit "=" := by decide
  simp [emitProduct, this]

theorem emitComponent_join (bb : BugBuilder) (params : List GoString) (h : AllNonempty params) :
    emitComponent bb (joinAmp params) = joinAmp (params ++ optParam "component" bb.component) := by
  rw [← emitOpt_join "component" bb.component params h]
  have : lit "component=" = lit "component" ++ lit "=" := by decide
  simp [emitComponent, this]

theorem emitSeverity_join (bb : BugBuilder) (params : List GoString) (h : AllNonempty params) :
    emitSeverity bb (joinAmp params) = joinAmp (params ++ optParam "severity" bb.severity) := by
  rw [← emitOpt_join "severity" bb.severity params h]
  have : lit "severity=" = lit "severity" ++ lit "=" := by decide
  simp [emitSeverity, this]

theorem emitPriority_join (bb : BugBuilder) (params : List GoString) (h : AllNonempty params) :
    emitPriority bb (joinAmp params) = joinAmp (params ++ optParam "priority" bb.priority) := by
  rw [← emitOpt_join "priority" bb.priority params h]
  have : lit "priority=" = lit "priority" ++ lit "=" := by decide
  simp [emitPriority, this]

theorem advancedLoop_eq (i : Nat) (ts : List AdvancedTuple) (query : GoString) :
    advancedLoop i ts query = query ++ advancedText i ts := by
  induction ts generalizing i query with
  | nil => simp [advancedLoop, advancedText]
  | cons t ts ih => simp [advancedLoop, advancedText, tripleText, ih]

theorem emitAdvanced_eq (bb : BugBuilder) (query : GoString) :
    emitAdvanced bb query = query ++ advancedText 0 bb.advanced.elems := by
  unfold emitAdvanced
  split
  · exact advancedLoop_eq 0 _ query
  · rename_i h
    have : bb.advanced.elems = [] := by
      cases hl : bb.advanced.elems with
      | nil => rfl
      | cons t ts => simp [hl] at h
    simp [this, advancedText]

theorem foldl_append_eq {α : Type} (f : α → GoString) (xs : List α) (query : GoString) :
    xs.foldl (fun query p => query ++ f p) query = query ++ xs.flatMap f := by
  induction xs generalizing query with
  | nil => simp
  | cons x xs ih => simp [ih]

theorem emitAuth_eq (bb : BugBuilder) (query : GoString) :
    emitAuth bb query = query ++ authText bb.bz := by
  unfold emitAuth authText
  cases bb.bz.AuthParams with
  | none => simp
  | some params => exact foldl_append_eq _ params query

/-- Closed form of the query: the parameters of the guarded blocks joined by
`&`, then the advanced triples and the auth parameters, each preceded by `&`. -/
theorem query_eq (bb : BugBuilder) :
    bb.query = joinAmp (leadParams bb ++ namedParams bb)
      ++ advancedText 0 bb.advanced.elems ++ authText bb.bz := by
  have h0 : AllNonempty [] := allNonempty_nil
  have h1 := (h0.append (allNonempty_idParams bb))
  have h2 := (h1.append (allNonempty_fieldParams bb))
  have h3 := (h2.append (allNonempty_statusParams bb))
  have h4 := (h3.append (allNonempty_createdParams bb))
  have h5 := (h4.append (allNonempty_changedParams bb))
  have h6 := (h5.append (allNonempty_optParam "product" bb.product))
  have h7 := (h6.append (allNonempty_optParam "component" bb.component))
  have h8 := (h7.append (allNonempty_optParam "severity" bb.severity))
  unfold BugBuilder.query
  simp only []
  rw [← joinAmp_nil, emitIds_join bb _ h0, emitFields_join bb _ h1, emitStatus_join bb _ h2,
    emitCreated_join bb _ h3, emitChanged_join bb _ h4, emitProduct_join bb _ h5,
    emitComponent_join bb _ h6, emitSeverity_join bb _ h7, emitPriority_join bb _ h8,
    emitAdvanced_eq, emitAuth_eq]
  simp [leadParams, namedParams]

theorem advancedParams_flatMap (i : Nat) (ts : List AdvancedTuple) :
    (advancedParams i ts).flatMap (fun p => lit "&" ++ p) = advancedText i ts := by
  induction ts generalizing i with
  | nil => simp [advancedParams, advancedText]
  | cons t ts ih =>
    have h1 : lit "&field" = lit "&" ++ lit "field" := by decide
    have h2 : lit "&type" = lit "&" ++ lit "type" := by decide
    have h3 : lit "&value" = lit "&" ++ lit "value" := by decide
    simp [advancedParams, advancedText, tripleText, tripleParams, ih, h1, h2, h3]

theorem joinAmp_append_advanced (params : List GoString) (hne : params ≠ []) (i : Nat)
    (ts : List AdvancedTuple) :
    joinAmp (params ++ advancedParams i ts) = joinAmp params ++ advancedText i ts := by
  cases params with
  | nil => exact absurd rfl hne
  | cons x xs =>
    simp only [joinAmp]
    rw [intercalate_append_flatMap, advancedParams_flatMap]

theorem joinAmp_cons (p : GoString) (ps : List GoString) :
    joinAmp (p :: ps) = p ++ ps.flatMap (fun q => lit "&" ++ q) :=
  intercalate_cons_flatMap _ p ps

theorem joinAmp_split (front : List GoString) (h : AllNonempty front) (p : GoString)
    (back : List GoString) :
    joinAmp (front ++ p :: back)
      = amp (joinAmp front) ++ p ++ back.flatMap (fun q => lit "&" ++ q) := by
  cases front with
  | nil => simp [joinAmp_cons, joinAmp_nil, amp_nil]
  | cons x xs =>
    have hx : x ≠ [] := h x (by simp)
    have hne : joinAmp (x :: xs) ≠ [] := intercalate_ne_nil _ x xs hx
    rw [amp_of_ne_nil _ hne]
    simp only [joinAmp]
    rw [intercalate_append_flatMap]
    simp

theorem joinAmp_block (front : List GoString) (h : AllNonempty front) (m : GoString)
    (ms back : List GoString) :
    joinAmp (front ++ (m :: ms) ++ back)
      = amp (joinAmp front) ++ joinAmp (m :: ms) ++ back.flatMap (fun q => lit "&" ++ q) := by
  rw [show front ++ (m :: ms) ++ back = front ++ m :: (ms ++ back) by simp,
    joinAmp_split front h, joinAmp_cons]
  simp

theorem amp_last (query : GoString) : amp query = [] ∨ ∃ p, amp query = p ++ lit "&" := by
  by_cases h : query = []
  · left; simp [h, amp_nil]
  · right; exact ⟨query, amp_of_ne_nil query h⟩

theorem flatMap_amp_first (ps : List GoString) :
    ps.flatMap (fun q => lit "&" ++ q) = []
      ∨ ∃ r, ps.flatMap (fun q => lit "&" ++ q) = lit "&" ++ r := by
  cases ps with
  | nil => left; rfl
  | cons p ps => right; exact ⟨p ++ ps.flatMap (fun q => lit "&" ++ q), by simp⟩

theorem advancedText_first (i : Nat) (ts : List AdvancedTuple) :
    advancedText i ts = [] ∨ ∃ r, advancedText i ts = lit "&" ++ r := by
  rw [← advancedParams_flatMap]
  exact flatMap_amp_first _

theorem authText_first (bz : Bugzilla) : authText bz = [] ∨ ∃ r, authText bz = lit "&" ++ r := by
  unfold authText
  cases bz.AuthParams with
  | none => left; rfl
  | some params =>
    cases params with
    | nil => left; rfl
    | cons p ps => right; exact ⟨_, by simp [List.append_assoc]; rfl⟩

theorem append_amp_first (a b : GoString) (ha : a = [] ∨ ∃ r, a = lit "&" ++ r)
    (hb : b = [] ∨ ∃ r, b = lit "&" ++ r) : a ++ b = [] ∨ ∃ r, a ++ b = lit "&" ++ r := by
  rcases ha with rfl | ⟨r, rfl⟩
  · simpa using hb
  · right; exact ⟨r ++ b, by simp⟩

theorem foldl_append_cons {α : Type} (s : Slice α) (v : α) (vs : List α) :
    (v :: vs).foldl Slice.append s = some (s.elems ++ v :: vs) := by
  induction vs generalizing s v with
  | nil => simp [Slice.append]
  | cons w ws ih =>
    rw [List.foldl_cons, ih]
    simp [Slice.append, Slice.elems]

theorem elems_foldl_append {α : Type} (s : Slice α) (vs : List α) :
    (vs.foldl Slice.append s).elems = s.elems ++ vs := by
  cases vs with
  | nil => simp
  | cons v vs => rw [foldl_append_cons]; simp [Slice.elems]

/-! ## The claims about the query builder -/

/-- The remainder of the query after a parameter: the later parameters, the
advanced triples and the auth parameters, each preceded by `&`. -/
theorem query_split (bb : BugBuilder) (front : List GoString) (p : GoString)
    (back : List GoString) (h : leadParams bb ++ namedParams bb = front ++ p :: back)
    (hfront : AllNonempty front) :
    ∃ rest, bb.query = amp (joinAmp front) ++ p ++ rest
      ∧ (rest = [] ∨ ∃ r, rest = lit "&" ++ r) := by
  refine ⟨back.flatMap (fun q => lit "&" ++ q) ++ advancedText 0 bb.advanced.elems
    ++ authText bb.bz, ?_, ?_⟩
  · rw [query_eq, h, joinAmp_split front hfront]
    simp only [List.append_assoc]
  · exact append_amp_first _ _
      (append_amp_first _ _ (flatMap_amp_first back) (advancedText_first _ _)) (authText_first _)

/-- C1: when the id list is `i1,...,in` (at least one id), the query of
`Execute` starts with `id=` followed by the decimal renderings of the ids in
list order joined by `,`, and what follows is empty or starts with `&`; `Id x`
appends `x` at the end of the id list. -/
theorem C1_id_parameter (bb : BugBuilder) (i : Int) (is : List Int)
    (hids : bb.ids = some (i :: is)) :
    (∃ rest, bb.query = lit "id=" ++ joinComma ((i :: is).map Itoa) ++ rest
        ∧ (rest = [] ∨ ∃ r, rest = lit "&" ++ r))
      ∧ (∀ x, (bb.Id x).ids = some (i :: is ++ [x]))
      ∧ (∀ (b : BugBuilder) (x : Int), (b.Id x).ids = some (b.ids.elems ++ [x])) := by
  refine ⟨?_, ?_, ?_⟩
  · have hp : idParams bb = [lit "id=" ++ joinComma ((i :: is).map Itoa)] := by
      simp [idParams, hids]
    obtain ⟨rest, hq, hrest⟩ := query_split bb [] (lit "id=" ++ joinComma ((i :: is).map Itoa))
      (fieldParams bb ++ statusParams bb ++ createdParams bb ++ changedParams bb
        ++ namedParams bb)
      (by simp [leadParams, hp]) allNonempty_nil
    refine ⟨rest, ?_, hrest⟩
    rw [hq, joinAmp_nil, amp_nil]
    simp
  · intro x
    simp [BugBuilder.Id, Slice.append, Slice.elems, hids]
  · intro b x
    rfl

/-- Witness of C1 at the builder `GetBugs().Id(886096).Id(883824)`. -/
theorem C1_id_parameter_witness :
    ∃ rest, ((NewBugzilla.GetBugs.Id 886096).Id 883824).query
        = lit "id=" ++ joinComma ([886096, 883824].map Itoa) ++ rest
      ∧ (rest = [] ∨ ∃ r, rest = lit "&" ++ r) :=
  (C1_id_parameter ((NewBugzilla.GetBugs.Id 886096).Id 883824) 886096 [883824] (by decide)).1

/-- C2: when the field list is `f1,...,fn` (at least one field), the query of
`Execute` is the id parameter with its separator (if any), then
`include_fields=` with the escaped fields in list order joined by `,`, then a
remainder that is empty or starts with `&`; `IncludeField` and `IncludeFields`
append at the end of the field list, a field added twice is listed twice. -/
theorem C2_include_fields_parameter (bb : BugBuilder) (f : GoString) (fs : List GoString)
    (hf : bb.fields = some (f :: fs)) :
    (∃ rest, bb.query = amp (joinAmp (idParams bb)) ++ lit "include_fields="
          ++ joinComma ((f :: fs).map QueryEscape) ++ rest
        ∧ (rest = [] ∨ ∃ r, rest = lit "&" ++ r))
      ∧ (∀ g, (bb.IncludeField g).fields = some (f :: fs ++ [g]))
      ∧ (∀ gs, (bb.IncludeFields gs).fields = some (f :: fs ++ gs))
      ∧ (∀ g, ((bb.IncludeField g).IncludeField g).fields = some (f :: fs ++ [g, g]))
      ∧ (∀ (b : BugBuilder) (g : GoString), (b.IncludeField g).fields.elems = b.fields.elems ++ [g])
      ∧ (∀ (b : BugBuilder) (gs : List GoString),
          (b.IncludeFields gs).fields.elems = b.fields.elems ++ gs) := by
  refine ⟨?_, ?_, ?_, ?_, ?_, ?_⟩
  · have hp : fieldParams bb = [lit "include_fields=" ++ joinComma ((f :: fs).map QueryEscape)] := by
      simp [fieldParams, hf]
    obtain ⟨rest, hq, hrest⟩ := query_split bb (idParams bb)
      (lit "include_fields=" ++ joinComma ((f :: fs).map QueryEscape))
      (statusParams bb ++ createdParams bb ++ changedParams bb ++ namedParams bb)
      (by simp [leadParams, hp]) (allNonempty_idParams bb)
    refine ⟨rest, ?_, hrest⟩
    rw [hq]
    simp
  · intro g
    simp [BugBuilder.IncludeField, Slice.append, Slice.elems, hf]
  · intro gs
    cases gs with
    | nil => simp [BugBuilder.IncludeFields, hf]
    | cons g gs =>
      simp only [BugBuilder.IncludeFields, hf]
      rw [foldl_append_cons]
      simp [Slice.elems]
  · intro g
    simp [BugBuilder.IncludeField, Slice.append, Slice.elems, hf]
  · intro b g
    simp [BugBuilder.IncludeField, Slice.append, Slice.elems]
  · intro b gs
    simp [BugBuilder.IncludeFields, elems_foldl_append]

/-- Witness of C2 at the builder `GetBugs().Id(7).IncludeField("a b").IncludeField("a b")`. -/
theorem C2_include_fields_parameter_witness :
    ∃ rest, (((NewBugzilla.GetBugs.Id 7).IncludeField (lit "a b")).IncludeField (lit "a b")).query
        = amp (joinAmp (idParams
              (((NewBugzilla.GetBugs.Id 7).IncludeField (lit "a b")).IncludeField (lit "a b"))))
          ++ lit "include_fields="
          ++ joinComma ([lit "_default", lit "a b", lit "a b"].map QueryEscape) ++ rest
      ∧ (rest = [] ∨ ∃ r, rest = lit "&" ++ r) :=
  (C2_include_fields_parameter
    (((NewBugzilla.GetBugs.Id 7).IncludeField (lit "a b")).IncludeField (lit "a b"))
    (lit "_default") [lit "a b", lit "a b"] (by decide)).1

/-- A run of consecutive parameters inside the query: what precedes it is empty
or ends with `&`, what follows is empty or starts with `&`. -/
theorem query_block (bb : BugBuilder) (front : List GoString) (m : GoString)
    (ms back : List GoString) (h : leadParams bb ++ namedParams bb = front ++ (m :: ms) ++ back)
    (hfront : AllNonempty front) :
    ∃ pre rest, bb.query = pre ++ joinAmp (m :: ms) ++ rest
      ∧ (pre = [] ∨ ∃ p, pre = p ++ lit "&")
      ∧ (rest = [] ∨ ∃ r, rest = lit "&" ++ r) := by
  refine ⟨amp (joinAmp front), back.flatMap (fun q => lit "&" ++ q)
    ++ advancedText 0 bb.advanced.elems ++ authText bb.bz, ?_, amp_last _, ?_⟩
  · rw [query_eq, h, joinAmp_block front hfront]
    simp only [List.append_assoc]
  · exact append_amp_first _ _
      (append_amp_first _ _ (flatMap_amp_first back) (advancedText_first _ _)) (authText_first _)

/-- C3: the query of `Execute` contains the parameters
`status=QueryEscape(s1)`, ..., `status=QueryEscape(sn)` of the status list, one
per value, consecutively, in list order and separated by `&`; when there is a
status value, what precedes them is empty or ends with `&` and what follows is
empty or starts with `&`.  `Status("NEW")` then `Status("ASSIGNED")` on the
builder of `GetBugs` gives `include_fields=_default&status=NEW&status=ASSIGNED`;
`Status` appends its arguments to the status list. -/
theorem C3_status_parameters (bb : BugBuilder) :
    (∃ pre rest,
        bb.query = pre
          ++ joinAmp (bb.status.elems.map (fun s => lit "status=" ++ QueryEscape s)) ++ rest
        ∧ (bb.status.elems ≠ [] →
            (pre = [] ∨ ∃ p, pre = p ++ lit "&") ∧ (rest = [] ∨ ∃ r, rest = lit "&" ++ r)))
      ∧ ((NewBugzilla.GetBugs.Status [lit "NEW"]).Status [lit "ASSIGNED"]).query
          = lit "include_fields=_default&status=NEW&status=ASSIGNED"
      ∧ (∀ (b : BugBuilder) (sts : List GoString),
          (b.Status sts).status.elems = b.status.elems ++ sts) := by
  refine ⟨?_, by decide, ?_⟩
  · cases hst : bb.status.elems.map (fun s => lit "status=" ++ QueryEscape s) with
    | nil =>
      refine ⟨bb.query, [], by simp [joinAmp_nil], ?_⟩
      intro hne
      simp at hst
      exact absurd hst hne
    | cons m ms =>
      obtain ⟨pre, rest, hq, hpre, hrest⟩ := query_block bb (idParams bb ++ fieldParams bb) m ms
        (createdParams bb ++ changedParams bb ++ namedParams bb)
        (by simp [leadParams, statusParams, hst])
        ((allNonempty_idParams bb).append (allNonempty_fieldParams bb))
      exact ⟨pre, rest, hq, fun _ => ⟨hpre, hrest⟩⟩
  · intro b sts
    simp [BugBuilder.Status, elems_foldl_append]

/-- Witness of C3 at the builder `GetBugs().Status("NEW", "A B")`. -/
theorem C3_status_parameters_witness :
    ∃ pre rest,
      (NewBugzilla.GetBugs.Status [lit "NEW", lit "A B"]).query
        = pre ++ joinAmp ([lit "NEW", lit "A B"].map (fun s => lit "status=" ++ QueryEscape s))
          ++ rest
      ∧ (pre = [] ∨ ∃ p, pre = p ++ lit "&") ∧ (rest = [] ∨ ∃ r, rest = lit "&" ++ r) := by
  obtain ⟨pre, rest, hq, hb⟩ :=
    (C3_status_parameters (NewBugzilla.GetBugs.Status [lit "NEW", lit "A B"])).1
  exact ⟨pre, rest, hq, hb (by decide)⟩

theorem tripleText_infix (i k : Nat) (ts : List AdvancedTuple) (t : AdvancedTuple)
    (h : ts[k]? = some t) : tripleText (i + k) t <:+: advancedText i ts := by
  induction ts generalizing i k with
  | nil => simp at h
  | cons u us ih =>
    cases k with
    | zero =>
      simp at h
      subst h
      exact ⟨[], advancedText (i + 1) us, by simp [advancedText]⟩
    | succ k =>
      simp at h
      obtain ⟨a, b, hab⟩ := ih (i + 1) k h
      refine ⟨tripleText i u ++ a, b, ?_⟩
      rw [show i + (k + 1) = i + 1 + k by omega]
      simp only [advancedText, List.append_assoc] at hab ⊢
      rw [hab]

/-- C4: the query of `Execute` ends with the texts
`&field<i>-0-0=<Field>&type<i>-0-0=<Type>&value<i>-0-0=<Value>` of the advanced
triples, in index order from 0, followed only by the auth parameters; the three
strings of a triple are copied as they are, so a value containing `&` appears
literally; `Advanced` appends its triple to the list. -/
theorem C4_advanced_triples (bb : BugBuilder) :
    (∃ pre, bb.query = pre ++ advancedText 0 bb.advanced.elems ++ authText bb.bz)
      ∧ (∀ (i : Nat) (t : AdvancedTuple), bb.advanced.elems[i]? = some t →
          (lit "&field" ++ Itoa i ++ lit "-0-0=" ++ t.Field
            ++ lit "&type" ++ Itoa i ++ lit "-0-0=" ++ t.Type_
            ++ lit "&value" ++ Itoa i ++ lit "-0-0=" ++ t.Value) <:+: bb.query)
      ∧ (NewBugzilla.GetBugs.Advanced (lit "summary") (lit "substring") (lit "a&b=c d")).query
          = lit "include_fields=_default&field0-0-0=summary&type0-0-0=substring&value0-0-0=a&b=c d"
      ∧ (∀ (b : BugBuilder) (field typ3 value : GoString),
          (b.Advanced field typ3 value).advanced
            = some (b.advanced.elems ++ [{ Field := field, Type_ := typ3, Value := value }])) := by
  refine ⟨⟨_, query_eq bb⟩, ?_, by decide, fun _ _ _ _ => rfl⟩
  intro i t h
  obtain ⟨a, b, hab⟩ := tripleText_infix 0 i bb.advanced.elems t h
  rw [query_eq]
  refine ⟨joinAmp (leadParams bb ++ namedParams bb) ++ a, b ++ authText bb.bz, ?_⟩
  rw [← hab]
  simp [tripleText]

/-- Witness of C4 at a builder with two advanced triples, index 1. -/
theorem C4_advanced_triples_witness :
    (lit "&field" ++ Itoa (1 : Nat) ++ lit "-0-0=" ++ lit "product"
        ++ lit "&type" ++ Itoa (1 : Nat) ++ lit "-0-0=" ++ lit "equals"
        ++ lit "&value" ++ Itoa (1 : Nat) ++ lit "-0-0=" ++ lit "R&D")
      <:+: ((NewBugzilla.GetBugs.Advanced (lit "bug_group") (lit "equals")
              (lit "websites-security")).Advanced (lit "product") (lit "equals")
              (lit "R&D")).query :=
  (C4_advanced_triples ((NewBugzilla.GetBugs.Advanced (lit "bug_group") (lit "equals")
      (lit "websites-security")).Advanced (lit "product") (lit "equals") (lit "R&D"))).2.1 1
    { Field := lit "product", Type_ := lit "equals", Value := lit "R&D" } (by decide)

theorem namedParams_eq_filter (bb : BugBuilder) :
    namedParams bb
      = ([("product", bb.product), ("component", bb.component), ("severity", bb.severity),
            ("priority", bb.priority)].filter (fun p => decide (p.2 ≠ []))).map
          (fun p => lit p.1 ++ lit "=" ++ QueryEscape p.2) := by
  unfold namedParams optParam
  by_cases h1 : bb.product = [] <;> by_cases h2 : bb.component = [] <;>
    by_cases h3 : bb.severity = [] <;> by_cases h4 : bb.priority = [] <;>
    simp [h1, h2, h3, h4, List.filter]

/-- C5: in the query of `Execute`, after the parameters for ids, fields,
statuses and dates and before the advanced triples and auth parameters, come
exactly the parameters `product=`, `component=`, `severity=`, `priority=` (in
this order) of those of the four values that are non-empty, each with its
escaped value and joined by `&`; an empty value gives no parameter, and nothing
else in the query depends on the four values. -/
theorem C5_named_parameters (bb : BugBuilder) :
    bb.query
        = joinAmp (leadParams bb
            ++ ([("product", bb.product), ("component", bb.component),
                  ("severity", bb.severity), ("priority", bb.priority)].filter
                (fun p => decide (p.2 ≠ []))).map
                (fun p => lit p.1 ++ lit "=" ++ QueryEscape p.2))
          ++ advancedText 0 bb.advanced.elems ++ authText bb.bz
      ∧ AllNonempty (leadParams bb)
      ∧ (∀ product component severity priority : GoString,
          leadParams { bb with product := product, component := component,
                               severity := severity, priority := priority } = leadParams bb) := by
  refine ⟨?_, allNonempty_leadParams bb, fun _ _ _ _ => rfl⟩
  rw [query_eq, namedParams_eq_filter]

/-- C6: when createdAfter, createdBefore, changedAfter and changedBefore are all
non-empty, the query of `Execute` contains
`changed_after=QueryEscape(changedAfter)&changed_before=QueryEscape(changedBefore)`
as parameters of their own, all its date parameters are built from changedAfter
and changedBefore, and the query is the same whatever non-empty values
createdAfter and createdBefore hold: no parameter carries them. -/
theorem C6_changed_pair_when_both_set (bb : BugBuilder)
    (hca : bb.createdAfter ≠ []) (hcb : bb.createdBefore ≠ [])
    (hha : bb.changedAfter ≠ []) (hhb : bb.changedBefore ≠ []) :
    (∃ pre rest,
        bb.query = pre
          ++ (lit "changed_after=" ++ QueryEscape bb.changedAfter
              ++ lit "&changed_before=" ++ QueryEscape bb.changedBefore) ++ rest
        ∧ (pre = [] ∨ ∃ p, pre = p ++ lit "&") ∧ (rest = [] ∨ ∃ r, rest = lit "&" ++ r))
      ∧ (∀ createdAfter createdBefore : GoString, createdAfter ≠ [] → createdBefore ≠ [] →
          ({ bb with createdAfter := createdAfter, createdBefore := createdBefore }
            : BugBuilder).query = bb.query)
      ∧ createdParams bb ++ changedParams bb
          = [lit "changed_after=" ++ QueryEscape bb.changedAfter,
             lit "changed_before=" ++ QueryEscape bb.changedBefore,
             lit "changed_after=" ++ QueryEscape bb.changedAfter,
             lit "changed_before=" ++ QueryEscape bb.changedBefore] := by
  have hpair : joinAmp (changedPair bb)
      = lit "changed_after=" ++ QueryEscape bb.changedAfter
          ++ lit "&changed_before=" ++ QueryEscape bb.changedBefore := by
    have h : lit "&changed_before=" = lit "&" ++ lit "changed_before=" := by decide
    simp [changedPair, joinAmp_cons, h]
  refine ⟨?_, ?_, ?_⟩
  · obtain ⟨pre, rest, hq, hpre, hrest⟩ := query_block bb
      (idParams bb ++ fieldParams bb ++ statusParams bb ++ createdParams bb)
      (lit "changed_after=" ++ QueryEscape bb.changedAfter)
      [lit "changed_before=" ++ QueryEscape bb.changedBefore] (namedParams bb)
      (by simp [leadParams, changedParams, changedPair, hha, hhb])
      ((((allNonempty_idParams bb).append (allNonempty_fieldParams bb)).append
        (allNonempty_statusParams bb)).append (allNonempty_createdParams bb))
    refine ⟨pre, rest, ?_, hpre, hrest⟩
    rw [hq]
    have h := hpair
    simp only [changedPair] at h
    rw [h]
  · intro ca cb h1 h2
    rw [query_eq, query_eq]
    simp [leadParams, idParams, fieldParams, statusParams, createdParams, changedParams,
      changedPair, namedParams, hca, hcb, h1, h2]
  · simp [createdParams, changedParams, changedPair, hca, hcb, hha, hhb]

/-- Witness of C6 at the builder of `GetBugs` with both date pairs set: other
created dates give the same query. -/
theorem C6_changed_pair_when_both_set_witness :
    ({ ({ NewBugzilla.GetBugs with
            createdAfter := lit "2024-01-01", createdBefore := lit "2024-01-02",
            changedAfter := lit "2024-02-01", changedBefore := lit "2024-02-02" }
          : BugBuilder) with
        createdAfter := lit "1999-12-31", createdBefore := lit "x" } : BugBuilder).query
      = ({ NewBugzilla.GetBugs with
            createdAfter := lit "2024-01-01", createdBefore := lit "2024-01-02",
            changedAfter := lit "2024-02-01", changedBefore := lit "2024-02-02" }
          : BugBuilder).query :=
  (C6_changed_pair_when_both_set
    { NewBugzilla.GetBugs with
        createdAfter := lit "2024-01-01", createdBefore := lit "2024-01-02",
        changedAfter := lit "2024-02-01", changedBefore := lit "2024-02-02" }
    (by decide) (by decide) (by decide) (by decide)).2.1 (lit "1999-12-31") (lit "x")
    (by decide) (by decide)

theorem fmtDate_ne_nil (t : Time) : fmtDate t ≠ [] := by
  have h : lit "-" = [45] := by decide
  simp [fmtDate, h]

/-- C7, counterexample: the builder of `GetBugs` and the same builder with
createdAfter and createdBefore set differ only in these two fields, yet `Execute`
builds different queries for them; and `CreatedToday` on the builder of
`GetBugs` adds a date-range pair to the query. -/
theorem C7_counterexample :
    NewBugzilla.GetBugs.query = lit "include_fields=_default"
      ∧ ({ NewBugzilla.GetBugs with
            createdAfter := lit "2024-01-01", createdBefore := lit "2024-01-02" }
          : BugBuilder).query
          = lit "include_fields=_default&changed_after=&changed_before="
      ∧ (NewBugzilla.GetBugs.CreatedToday { unix := 1700000000, zone := fun _ => 0 }).query
          = lit "include_fields=_default,last_change_time&changed_after=&changed_before=" := by
  refine ⟨by decide, by decide, by decide⟩

/-- C7, amended: the values of createdAfter and createdBefore are never
serialized, only tested for emptiness: two builder states that differ only in
these two fields and agree on whether both are non-empty get the same query from
`Execute`; in particular the query built after `CreatedToday` does not depend
on the dates it stored. -/
theorem C7_created_values_not_serialized (bb : BugBuilder) (createdAfter createdBefore : GoString)
    (h : (createdAfter ≠ [] ∧ createdBefore ≠ []) ↔ (bb.createdAfter ≠ [] ∧ bb.createdBefore ≠ [])) :
    ({ bb with createdAfter := createdAfter, createdBefore := createdBefore } : BugBuilder).query
        = bb.query
      ∧ (∀ now later : Time, (bb.CreatedToday now).query = (bb.CreatedToday later).query) := by
  refine ⟨?_, ?_⟩
  · rw [query_eq, query_eq]
    simp only [leadParams, idParams, fieldParams, statusParams, createdParams, changedParams,
      changedPair, namedParams, h]
  · intro now later
    rw [query_eq, query_eq]
    simp [leadParams, idParams, fieldParams, statusParams, createdParams, changedParams,
      changedPair, namedParams, BugBuilder.CreatedToday, fmtDate_ne_nil]

/-- Witness of C7 (amended) at the builder of `GetBugs` with both created dates
set, replaced by two other non-empty strings. -/
theorem C7_created_values_not_serialized_witness :
    ({ ({ NewBugzilla.GetBugs with
            createdAfter := lit "2024-01-01", createdBefore := lit "2024-01-02" } : BugBuilder) with
        createdAfter := lit "x", createdBefore := lit "y" } : BugBuilder).query
      = ({ NewBugzilla.GetBugs with
            createdAfter := lit "2024-01-01", createdBefore := lit "2024-01-02" }
          : BugBuilder).query :=
  (C7_created_values_not_serialized
    { NewBugzilla.GetBugs with
        createdAfter := lit "2024-01-01", createdBefore := lit "2024-01-02" }
    (lit "x") (lit "y") (by decide)).1

theorem namedParams_eq_ite (bb : BugBuilder) :
    namedParams bb
      = (if bb.product ≠ [] then [lit "product=" ++ QueryEscape bb.product] else [])
        ++ (if bb.component ≠ [] then [lit "component=" ++ QueryEscape bb.component] else [])
        ++ (if bb.severity ≠ [] then [lit "severity=" ++ QueryEscape bb.severity] else [])
        ++ (if bb.priority ≠ [] then [lit "priority=" ++ QueryEscape bb.priority] else []) := by
  have h1 : lit "product=" = lit "product" ++ lit "=" := by decide
  have h2 : lit "component=" = lit "component" ++ lit "=" := by decide
  have h3 : lit "severity=" = lit "severity" ++ lit "=" := by decide
  have h4 : lit "priority=" = lit "priority" ++ lit "=" := by decide
  simp only [namedParams, optParam, h1, h2, h3, h4, List.append_assoc]

theorem changedParams_eq_spec (bb : BugBuilder) : changedParams bb = specDateClause bb := by
  unfold changedParams specDateClause changedPair
  by_cases h1 : bb.changedAfter = [] <;> by_cases h2 : bb.changedBefore = [] <;> simp [h1, h2]

theorem query_eq_codeParams (bb : BugBuilder) (f : GoString) (fs : List GoString)
    (hf : bb.fields = some (f :: fs)) (hauth : bb.bz.AuthParams = none)
    (hcreated : bb.createdAfter = [] ∨ bb.createdBefore = []) :
    bb.query = joinAmp (idParams bb ++ specParamsAfterId bb) := by
  have hc : createdParams bb = [] := by
    unfold createdParams
    rcases hcreated with h | h <;> simp [h]
  have hfp : fieldParams bb = [lit "include_fields=" ++ joinComma (bb.fields.elems.map QueryEscape)] := by
    simp [fieldParams, hf, Slice.elems]
  have hne : leadParams bb ++ namedParams bb ≠ [] := by
    simp [leadParams, hfp]
  have ha : authText bb.bz = [] := by simp [authText, hauth]
  rw [query_eq, ha, List.append_nil, ← joinAmp_append_advanced _ hne]
  congr 1
  simp only [leadParams, hc, hfp, changedParams_eq_spec, namedParams_eq_ite, specParamsAfterId,
    List.append_assoc, List.append_nil, List.nil_append, statusParams]

/-! ## Bytes that the escaped and the decimal strings never hold -/

theorem upperhex_getD_ne_amp (k : Nat) : upperhex.getD k 0 ≠ 38 := by
  by_cases hk : k < upperhex.length
  · rw [List.getD_eq_getElem _ _ hk]
    have hall : ∀ x ∈ upperhex, x ≠ 38 := by decide
    exact hall _ (List.getElem_mem hk)
  · rw [List.getD_eq_default _ _ (Nat.le_of_not_lt hk)]
    decide

theorem amp_not_mem_escapeByte (c : UInt8) : (38 : UInt8) ∉ escapeByte c := by
  unfold escapeByte
  split
  · decide
  · split
    · simp only [List.mem_cons, List.mem_singleton, List.not_mem_nil, or_false, not_or]
      exact ⟨by decide, (upperhex_getD_ne_amp _).symm, (upperhex_getD_ne_amp _).symm⟩
    · rename_i h
      simp only [List.mem_singleton]
      intro hc
      rw [← hc] at h
      exact h (by decide)

theorem amp_not_mem_QueryEscape (s : GoString) : (38 : UInt8) ∉ QueryEscape s := by
  unfold QueryEscape
  simp only [List.mem_flatMap, not_exists, not_and]
  intro c _
  exact amp_not_mem_escapeByte c

theorem digitChar_mem (d : Nat) (h : d < 10) :
    Nat.digitChar d ∈ ['0', '1', '2', '3', '4', '5', '6', '7', '8', '9'] := by
  interval_cases d <;> decide

theorem toDigitsCore_mem (fuel n : Nat) (acc : List Char)
    (hacc : ∀ c ∈ acc, c ∈ ['0', '1', '2', '3', '4', '5', '6', '7', '8', '9']) :
    ∀ c ∈ Nat.toDigitsCore 10 fuel n acc,
      c ∈ ['0', '1', '2', '3', '4', '5', '6', '7', '8', '9'] := by
  induction fuel generalizing n acc with
  | zero => simpa [Nat.toDigitsCore] using hacc
  | succ fuel ih =>
    have hd := digitChar_mem (n % 10) (Nat.mod_lt _ (by decide))
    have hacc2 : ∀ c ∈ Nat.digitChar (n % 10) :: acc,
        c ∈ ['0', '1', '2', '3', '4', '5', '6', '7', '8', '9'] := by
      intro c hc
      rcases List.mem_cons.mp hc with h | h
      · rw [h]; exact hd
      · exact hacc c h
    unfold Nat.toDigitsCore
    simp only []
    split
    · exact hacc2
    · exact ih _ _ hacc2

theorem amp_not_mem_decimal (n : Nat) : (38 : UInt8) ∉ decimal n := by
  unfold decimal
  simp only [List.mem_flatMap, not_exists, not_and]
  intro c hc
  have hmem := toDigitsCore_mem (n + 1) n [] (by simp) c hc
  have hall : ∀ c ∈ ['0', '1', '2', '3', '4', '5', '6', '7', '8', '9'],
      (38 : UInt8) ∉ String.utf8EncodeChar c := by decide
  exact hall c hmem

theorem amp_not_mem_Itoa (i : Int) : (38 : UInt8) ∉ Itoa i := by
  unfold Itoa
  split
  · exact amp_not_mem_decimal _
  · have h : lit "-" = [45] := by decide
    simp only [h, List.mem_append, List.mem_singleton, not_or]
    exact ⟨by decide, amp_not_mem_decimal _⟩

theorem amp_not_mem_joinComma (values : List GoString) (h : ∀ v ∈ values, (38 : UInt8) ∉ v) :
    (38 : UInt8) ∉ joinComma values := by
  cases values with
  | nil => simp [joinComma, List.intercalate]
  | cons v vs =>
    unfold joinComma
    rw [intercalate_cons_flatMap]
    have hc : lit "," = [44] := by decide
    simp only [hc, List.mem_append, List.mem_flatMap, not_or, not_exists, not_and,
      List.singleton_append, List.mem_cons]
    refine ⟨h v (by simp), ?_⟩
    intro w hw
    exact ⟨by decide, h w (by simp [hw])⟩

theorem plainParam_of_name (a b : UInt8) (name value : GoString) (hab : ¬ (a = 105 ∧ b = 110))
    (hname : (38 : UInt8) ∉ a :: b :: name) (hvalue : (38 : UInt8) ∉ value) :
    PlainParam (a :: b :: name ++ value) := by
  refine ⟨?_, ?_⟩
  · intro h
    rcases List.mem_append.mp h with h | h
    · exact hname h
    · exact hvalue h
  · have hkey : lit "include_fields" ++ lit "="
        = 105 :: 110 :: (lit "clude_fields" ++ lit "=") := by decide
    rw [hkey]
    intro h
    simp only [List.cons_append, List.cons_prefix_cons] at h
    exact hab ⟨h.1.symm, h.2.1.symm⟩

theorem plainParam_idParams (bb : BugBuilder) : ∀ p ∈ idParams bb, PlainParam p := by
  unfold idParams
  cases bb.ids with
  | none => simp
  | some ids =>
    intro p hp
    simp only [List.mem_singleton] at hp
    rw [hp, show lit "id=" = 105 :: 100 :: [61] by decide]
    refine plainParam_of_name _ _ _ _ (by decide) (by decide) (amp_not_mem_joinComma _ ?_)
    intro v hv
    obtain ⟨i, _, rfl⟩ := List.mem_map.mp hv
    exact amp_not_mem_Itoa i

theorem plainParam_statusParams (bb : BugBuilder) : ∀ p ∈ statusParams bb, PlainParam p := by
  intro p hp
  obtain ⟨s, _, rfl⟩ := List.mem_map.mp hp
  rw [show lit "status=" = 115 :: 116 :: lit "atus=" by decide]
  exact plainParam_of_name _ _ _ _ (by decide) (by decide) (amp_not_mem_QueryEscape s)

theorem plainParam_changedAfter (bb : BugBuilder) :
    PlainParam (lit "changed_after=" ++ QueryEscape bb.changedAfter) := by
  rw [show lit "changed_after=" = 99 :: 104 :: lit "anged_after=" by decide]
  exact plainParam_of_name _ _ _ _ (by decide) (by decide) (amp_not_mem_QueryEscape _)

theorem plainParam_changedPair (bb : BugBuilder) : ∀ p ∈ changedPair bb, PlainParam p := by
  intro p hp
  simp only [changedPair, List.mem_cons, List.mem_singleton, List.not_mem_nil, or_false] at hp
  rcases hp with rfl | rfl
  · exact plainParam_changedAfter bb
  · rw [show lit "changed_before=" = 99 :: 104 :: lit "anged_before=" by decide]
    exact plainParam_of_name _ _ _ _ (by decide) (by decide) (amp_not_mem_QueryEscape _)

theorem plainParam_createdParams (bb : BugBuilder) : ∀ p ∈ createdParams bb, PlainParam p := by
  unfold createdParams
  split
  · exact plainParam_changedPair bb
  · simp

theorem plainParam_changedParams (bb : BugBuilder) : ∀ p ∈ changedParams bb, PlainParam p := by
  unfold changedParams
  split
  · exact plainParam_changedPair bb
  · split
    · intro p hp
      simp only [List.mem_singleton] at hp
      rw [hp]
      exact plainParam_changedAfter bb
    · simp

theorem plainParam_namedParams (bb : BugBuilder) : ∀ p ∈ namedParams bb, PlainParam p := by
  rw [namedParams_eq_ite]
  intro p hp
  simp only [List.mem_append] at hp
  rcases hp with ((hp | hp) | hp) | hp
  · split at hp
    · simp only [List.mem_singleton] at hp
      rw [hp, show lit "product=" = 112 :: 114 :: lit "oduct=" by decide]
      exact plainParam_of_name _ _ _ _ (by decide) (by decide) (amp_not_mem_QueryEscape _)
    · simp at hp
  · split at hp
    · simp only [List.mem_singleton] at hp
      rw [hp, show lit "component=" = 99 :: 111 :: lit "mponent=" by decide]
      exact plainParam_of_name _ _ _ _ (by decide) (by decide) (amp_not_mem_QueryEscape _)
    · simp at hp
  · split at hp
    · simp only [List.mem_singleton] at hp
      rw [hp, show lit "severity=" = 115 :: 101 :: lit "verity=" by decide]
      exact plainParam_of_name _ _ _ _ (by decide) (by decide) (amp_not_mem_QueryEscape _)
    · simp at hp
  · split at hp
    · simp only [List.mem_singleton] at hp
      rw [hp, show lit "priority=" = 112 :: 114 :: lit "iority=" by decide]
      exact plainParam_of_name _ _ _ _ (by decide) (by decide) (amp_not_mem_QueryEscape _)
    · simp at hp

theorem queryParams_joinAmp (params : List GoString) (h : ∀ p ∈ params, (38 : UInt8) ∉ p)
    (hne : params ≠ []) : queryParams (joinAmp params) = params := by
  unfold queryParams joinAmp
  rw [lit_amp]
  exact List.splitOn_intercalate _ 38 h hne

theorem not_hasParam_of_plain (params : List GoString) (h : ∀ p ∈ params, PlainParam p) :
    ¬ HasParam "include_fields" (joinAmp params) := by
  rintro ⟨p, hp, hpre⟩
  by_cases hne : params = []
  · rw [hne, joinAmp_nil] at hp
    have hp2 : p = [] := by simpa [queryParams, List.splitOn_nil] using hp
    rw [hp2] at hpre
    revert hpre
    decide
  · rw [queryParams_joinAmp params (fun q hq => (h q hq).1) hne] at hp
    exact (h p hp).2 hpre

/-- C9, counterexample: the builder returned by `GetBugs`, with no call made on
it, gets the query `include_fields=_default`, which has an `include_fields=`
parameter. -/
theorem C9_counterexample :
    NewBugzilla.GetBugs.query = lit "include_fields=_default"
      ∧ HasParam "include_fields" NewBugzilla.GetBugs.query :=
  ⟨by decide, lit "include_fields=_default", by decide, by decide⟩

/-- C9, amended: the `include_fields=` parameter is emitted exactly when the
field list is non-nil.  `GetBugs` returns a builder whose field list is
`_default`, so with no further call its query is `include_fields=_default`
followed by the auth parameters; a builder whose field list is nil (with no
advanced triples and no auth mapping, whose texts are copied unescaped) gets a
query without an `include_fields=` parameter. -/
theorem C9_include_fields_emitted_iff_field_list (bz : Bugzilla) :
    bz.GetBugs.query = lit "include_fields=_default" ++ authText bz
      ∧ (∀ bb : BugBuilder, bb.fields = none → bb.advanced.elems = [] →
          bb.bz.AuthParams = none → ¬ HasParam "include_fields" bb.query) := by
  refine ⟨?_, ?_⟩
  · rw [query_eq]
    have hl : leadParams bz.GetBugs ++ namedParams bz.GetBugs
        = [lit "include_fields=" ++ joinComma ([lit "_default"].map QueryEscape)] := by
      simp [leadParams, idParams, fieldParams, statusParams, createdParams, changedParams,
        namedParams, optParam, Bugzilla.GetBugs, Slice.elems]
    have hv : joinAmp [lit "include_fields=" ++ joinComma ([lit "_default"].map QueryEscape)]
        = lit "include_fields=_default" := by decide
    rw [hl, hv]
    simp [Bugzilla.GetBugs, Slice.elems, advancedText]
  · intro bb hf hadv hauth
    rw [query_eq, hadv]
    have ha : authText bb.bz = [] := by simp [authText, hauth]
    rw [ha]
    simp only [advancedText, List.append_nil]
    apply not_hasParam_of_plain
    intro p hp
    have hfp : fieldParams bb = [] := by simp [fieldParams, hf]
    simp only [leadParams, hfp, List.append_nil, List.mem_append] at hp
    rcases hp with (((hp | hp) | hp) | hp) | hp
    · exact plainParam_idParams bb p hp
    · exact plainParam_statusParams bb p hp
    · exact plainParam_createdParams bb p hp
    · exact plainParam_changedParams bb p hp
    · exact plainParam_namedParams bb p hp

/-- Witness of C9 (amended) at a builder with nil field list, one id, one status
and a product. -/
theorem C9_include_fields_emitted_iff_field_list_witness :
    ¬ HasParam "include_fields"
      ({ NewBugzilla.GetBugs with
          fields := none, ids := some [7], status := some [lit "NEW"], product := lit "Core" }
        : BugBuilder).query :=
  (C9_include_fields_emitted_iff_field_list NewBugzilla).2
    { NewBugzilla.GetBugs with
        fields := none, ids := some [7], status := some [lit "NEW"], product := lit "Core" }
    (by decide) (by decide) (by decide)

/-! ## The claims about records and the result of `Execute` -/

theorem foldl_numericIds (p : GoPlatform) (elems : List JSONValue) (acc : List Int) :
    elems.foldl (fun (ids : Slice Int) v =>
        match v with
        | JSONValue.number v => ids.append (float64ToInt p v)
        | _ => ids) (some acc)
      = some (acc ++ numericIds p elems) := by
  induction elems generalizing acc with
  | nil => simp [numericIds]
  | cons v vs ih =>
    rw [List.foldl_cons]
    cases v with
    | number q =>
      change List.foldl _ (some (acc ++ [float64ToInt p q])) vs = _
      rw [ih]
      simp [numericIds]
    | null => change List.foldl _ (some acc) vs = _; rw [ih]; simp [numericIds]
    | bool _ => change List.foldl _ (some acc) vs = _; rw [ih]; simp [numericIds]
    | string _ => change List.foldl _ (some acc) vs = _; rw [ih]; simp [numericIds]
    | array _ => change List.foldl _ (some acc) vs = _; rw [ih]; simp [numericIds]
    | object _ => change List.foldl _ (some acc) vs = _; rw [ih]; simp [numericIds]

theorem ParseBlocks_array (p : GoPlatform) (b : Bug) (elems : List JSONValue)
    (h : b.Blocks_ = JSONValue.array elems) : b.ParseBlocks p = some (numericIds p elems) := by
  unfold Bug.ParseBlocks
  rw [h]
  simpa using foldl_numericIds p elems []

theorem ParseDependsOn_array (p : GoPlatform) (b : Bug) (elems : List JSONValue)
    (h : b.DependsOn_ = JSONValue.array elems) : b.ParseDependsOn p = some (numericIds p elems) := by
  unfold Bug.ParseDependsOn
  rw [h]
  simpa using foldl_numericIds p elems []

theorem ParseBlocks_other (p : GoPlatform) (b : Bug) (h : ∀ elems, b.Blocks_ ≠ JSONValue.array elems) :
    b.ParseBlocks p = some [] := by
  unfold Bug.ParseBlocks
  cases hb : b.Blocks_ <;> simp
  exact absurd hb (h _)

theorem ParseDependsOn_other (p : GoPlatform) (b : Bug) (h : ∀ elems, b.DependsOn_ ≠ JSONValue.array elems) :
    b.ParseDependsOn p = some [] := by
  unfold Bug.ParseDependsOn
  cases hb : b.DependsOn_ <;> simp
  exact absurd hb (h _)

theorem float64ToInt_range (p : GoPlatform) (v : ℚ) :
    minInt ≤ float64ToInt p v ∧ float64ToInt p v ≤ maxInt := by
  unfold float64ToInt
  simp only []
  split
  · rename_i h
    exact h
  · unfold minInt maxInt
    omega

theorem float64ToInt_trunc (p : GoPlatform) (v : ℚ)
    (h : minInt ≤ Int.tdiv v.num v.den ∧ Int.tdiv v.num v.den ≤ maxInt) :
    float64ToInt p v = Int.tdiv v.num v.den := by
  unfold float64ToInt
  simp only []
  rw [if_pos h]

/-- C11: `ParseBlocks` returns a non-nil sequence; when the raw `Blocks_` value
is a JSON sequence the result is its numeric elements, each coerced to an
integer by `int(v)`, in their original order, every other element skipped;
when the raw value is absent, null or any other non-sequence the result is the
empty sequence; the raw value `[123, 456, "bad"]` gives `[123, 456]`.  The
coercion discards the fraction of a number that `int` can hold and always gives
a value of `int`. -/
theorem C11_ParseBlocks (p : GoPlatform) (b : Bug) :
    b.ParseBlocks p ≠ none
      ∧ (∀ elems, b.Blocks_ = JSONValue.array elems →
          b.ParseBlocks p = some (numericIds p elems))
      ∧ ((∀ elems, b.Blocks_ ≠ JSONValue.array elems) → b.ParseBlocks p = some [])
      ∧ numericIds p [JSONValue.number 123, JSONValue.number 456, JSONValue.string (lit "bad")]
          = [123, 456]
      ∧ (∀ v : ℚ, minInt ≤ Int.tdiv v.num v.den ∧ Int.tdiv v.num v.den ≤ maxInt →
          float64ToInt p v = Int.tdiv v.num v.den)
      ∧ (∀ v : ℚ, minInt ≤ float64ToInt p v ∧ float64ToInt p v ≤ maxInt) := by
  refine ⟨?_, ParseBlocks_array p b, ParseBlocks_other p b, ?_, float64ToInt_trunc p,
    float64ToInt_range p⟩
  · by_cases h : ∃ elems, b.Blocks_ = JSONValue.array elems
    · obtain ⟨elems, he⟩ := h
      rw [ParseBlocks_array p b elems he]
      simp
    · rw [ParseBlocks_other p b (fun elems he => h ⟨elems, he⟩)]
      simp
  · simp [numericIds, float64ToInt, minInt, maxInt]

/-- Witness of C11 at a record whose raw `Blocks_` value is `[123, 456, "bad"]`. -/
theorem C11_ParseBlocks_witness :
    ({ zeroBug with
        Blocks_ := JSONValue.array
          [JSONValue.number 123, JSONValue.number 456, JSONValue.string (lit "bad")] }
      : Bug).ParseBlocks amd64
      = some (numericIds amd64
          [JSONValue.number 123, JSONValue.number 456, JSONValue.string (lit "bad")]) :=
  (C11_ParseBlocks amd64
    { zeroBug with
        Blocks_ := JSONValue.array
          [JSONValue.number 123, JSONValue.number 456, JSONValue.string (lit "bad")] }).2.1
    _ rfl

/-- C12: `ParseDependsOn` applies to `DependsOn_` the rule that `ParseBlocks`
applies to `Blocks_`: for the same raw value they return the same sequence, and
neither result depends on the other raw field. -/
theorem C12_ParseDependsOn_same_rule (p : GoPlatform) (v : JSONValue) (b c : Bug)
    (hb : b.DependsOn_ = v) (hc : c.Blocks_ = v) :
    b.ParseDependsOn p = c.ParseBlocks p
      ∧ (∀ other : JSONValue, ({ b with Blocks_ := other } : Bug).ParseDependsOn p = b.ParseDependsOn p)
      ∧ (∀ other : JSONValue, ({ c with DependsOn_ := other } : Bug).ParseBlocks p = c.ParseBlocks p) := by
  refine ⟨?_, fun _ => rfl, fun _ => rfl⟩
  unfold Bug.ParseDependsOn Bug.ParseBlocks
  rw [hb, hc]

/-- Witness of C12 at the raw value `[7, null, 9]` held by both fields of two
records. -/
theorem C12_ParseDependsOn_same_rule_witness :
    ({ zeroBug with
        DependsOn_ := JSONValue.array [JSONValue.number 7, JSONValue.null, JSONValue.number 9] }
      : Bug).ParseDependsOn amd64
      = ({ zeroBug with
            Blocks_ := JSONValue.array [JSONValue.number 7, JSONValue.null, JSONValue.number 9],
            DependsOn_ := JSONValue.string (lit "x") } : Bug).ParseBlocks amd64 :=
  (C12_ParseDependsOn_same_rule amd64
    (JSONValue.array [JSONValue.number 7, JSONValue.null, JSONValue.number 9])
    { zeroBug with
        DependsOn_ := JSONValue.array [JSONValue.number 7, JSONValue.null, JSONValue.number 9] }
    { zeroBug with
        Blocks_ := JSONValue.array [JSONValue.number 7, JSONValue.null, JSONValue.number 9],
        DependsOn_ := JSONValue.string (lit "x") }
    rfl rfl).1

/-- C13: `Postprocess` is idempotent, and it changes no field of the record
other than `Blocks` and `DependsOn`: putting the old values of these two back
gives the record it started from, raw `Blocks_` and `DependsOn_` included. -/
theorem C13_Postprocess_idempotent (p : GoPlatform) (b : Bug) :
    (b.Postprocess p).Postprocess p = b.Postprocess p
      ∧ ({ b.Postprocess p with Blocks := b.Blocks, DependsOn := b.DependsOn } : Bug) = b
      ∧ (b.Postprocess p).Blocks_ = b.Blocks_ ∧ (b.Postprocess p).DependsOn_ = b.DependsOn_
      ∧ (b.Postprocess p).Blocks = b.ParseBlocks p ∧ (b.Postprocess p).DependsOn = b.ParseDependsOn p := by
  refine ⟨rfl, rfl, rfl, rfl, rfl, rfl⟩

theorem modify_append_cons (p : GoPlatform) (pre : List Bug) (x : Bug) (xs : List Bug) :
    (pre ++ x :: xs).modify (Bug.Postprocess p) pre.length = pre ++ x.Postprocess p :: xs := by
  induction pre with
  | nil => rfl
  | cons q qs ih =>
    simp only [List.cons_append, List.length_cons]
    rw [List.modify_succ_cons, ih]

theorem postprocessLoop_append (p : GoPlatform) (pre post : List Bug) :
    postprocessLoop p post.length pre.length (pre ++ post) = pre ++ post.map (Bug.Postprocess p) := by
  induction post generalizing pre with
  | nil => simp [postprocessLoop]
  | cons x xs ih =>
    simp only [List.length_cons, postprocessLoop]
    rw [modify_append_cons p]
    have h := ih (pre ++ [x.Postprocess p])
    simp only [List.length_append, List.length_singleton, List.append_assoc,
      List.singleton_append] at h
    rw [h]
    simp

theorem postprocessAll_eq (p : GoPlatform) (bugs : Slice Bug) :
    postprocessAll p bugs = bugs.map (fun elems => elems.map (Bug.Postprocess p)) := by
  cases bugs with
  | none => rfl
  | some elems =>
    have h := postprocessLoop_append p [] elems
    simp only [List.length_nil, List.nil_append] at h
    simp [postprocessAll, h]

theorem Execute_ok (p : GoPlatform) (w : World) (bb : BugBuilder) (res : Response) (body : GoString)
    (bugResponse : BugResponse) (hget : w.httpGet bb.url = Except.ok res)
    (hread : res.readAll = Except.ok body)
    (hjson : w.jsonUnmarshal body = Except.ok bugResponse) :
    bb.Execute p w
      = { bugs := postprocessAll p bugResponse.Bugs, err := none,
          steps := [Step.httpGet bb.url, Step.readAll, Step.jsonUnmarshal body,
            Step.closeBody] } := by
  simp [BugBuilder.Execute, hget, hread, hjson]

/-- C14: when the response body decodes to an envelope with bug list `L` (a
`nil` list when the `bugs` key is missing), `Execute` returns no error and the
records of `L` in the same order, each one postprocessed, so with the ids of
`L`; an envelope with the single record of id 1 yields one record with id 1,
and an envelope without `bugs` key yields an empty sequence and no error. -/
theorem C14_Execute_result (p : GoPlatform) (w : World) (bb : BugBuilder) (res : Response) (body : GoString)
    (L : Slice Bug) (hget : w.httpGet bb.url = Except.ok res)
    (hread : res.readAll = Except.ok body)
    (hjson : w.jsonUnmarshal body = Except.ok { Bugs := L }) :
    (bb.Execute p w).err = none
      ∧ (bb.Execute p w).bugs.elems = L.elems.map (Bug.Postprocess p)
      ∧ (bb.Execute p w).bugs.elems.length = L.elems.length
      ∧ (∀ i : Nat, (bb.Execute p w).bugs.elems[i]? = (L.elems[i]?).map (Bug.Postprocess p))
      ∧ (bb.Execute p w).bugs.elems.map Bug.Id = L.elems.map Bug.Id
      ∧ (∀ b : Bug, L = some [b] → b.Id = 1 →
          (bb.Execute p w).bugs = some [b.Postprocess p] ∧ (b.Postprocess p).Id = 1)
      ∧ (L = none → (bb.Execute p w).bugs.elems = [] ∧ (bb.Execute p w).err = none) := by
  have hex := Execute_ok p w bb res body { Bugs := L } hget hread hjson
  have hbugs : (bb.Execute p w).bugs = L.map (fun elems => elems.map (Bug.Postprocess p)) := by
    rw [hex, postprocessAll_eq]
  have helems : (bb.Execute p w).bugs.elems = L.elems.map (Bug.Postprocess p) := by
    rw [hbugs]
    cases L <;> simp [Slice.elems]
  refine ⟨by rw [hex], helems, by rw [helems]; simp, ?_, ?_, ?_, ?_⟩
  · intro i
    rw [helems]
    simp
  · rw [helems, List.map_map]
    rfl
  · intro b hL hid
    refine ⟨by rw [hbugs, hL]; rfl, hid⟩
  · intro hL
    refine ⟨by rw [helems, hL]; rfl, by rw [hex]⟩

/-- Witness of C14: a transport that answers every request with the body
`\x7b"bugs":[\x7b"id":1\x7d]\x7d` and a decoder that reads it as one record of id 1. -/
theorem C14_Execute_result_witness :
    (NewBugzilla.GetBugs.Execute amd64
        { httpGet := fun _ =>
            Except.ok { readAll := Except.ok (lit "\x7b\"bugs\":[\x7b\"id\":1\x7d]\x7d") },
          jsonUnmarshal := fun _ => Except.ok { Bugs := some [{ zeroBug with Id := 1 }] } }).err
        = none
      ∧ (NewBugzilla.GetBugs.Execute amd64
          { httpGet := fun _ =>
              Except.ok { readAll := Except.ok (lit "\x7b\"bugs\":[\x7b\"id\":1\x7d]\x7d") },
            jsonUnmarshal := fun _ =>
              Except.ok { Bugs := some [{ zeroBug with Id := 1 }] } }).bugs.elems.map Bug.Id
        = [1] := by
  have h := C14_Execute_result amd64
    { httpGet := fun _ =>
        Except.ok { readAll := Except.ok (lit "\x7b\"bugs\":[\x7b\"id\":1\x7d]\x7d") },
      jsonUnmarshal := fun _ => Except.ok { Bugs := some [{ zeroBug with Id := 1 }] } }
    NewBugzilla.GetBugs
    { readAll := Except.ok (lit "\x7b\"bugs\":[\x7b\"id\":1\x7d]\x7d") }
    (lit "\x7b\"bugs\":[\x7b\"id\":1\x7d]\x7d") (some [{ zeroBug with Id := 1 }]) rfl rfl rfl
  exact ⟨h.1, h.2.2.2.2.1⟩

/-- C15: `Execute` returns an error exactly when `http.Get`, the body read or
the JSON decode returns one; the error is that step's error unchanged, the
result sequence is then `nil`, and no later one of the three steps is run
(only the deferred close of the body, once `http.Get` has succeeded). -/
theorem C15_Execute_errors (p : GoPlatform) (w : World) (bb : BugBuilder) :
    ((bb.Execute p w).err = none ↔
        ∃ res body bugResponse, w.httpGet bb.url = Except.ok res
          ∧ res.readAll = Except.ok body ∧ w.jsonUnmarshal body = Except.ok bugResponse)
      ∧ (∀ e, w.httpGet bb.url = Except.error e →
          (bb.Execute p w).err = some e ∧ (bb.Execute p w).bugs = none
            ∧ (bb.Execute p w).steps = [Step.httpGet bb.url])
      ∧ (∀ res e, w.httpGet bb.url = Except.ok res → res.readAll = Except.error e →
          (bb.Execute p w).err = some e ∧ (bb.Execute p w).bugs = none
            ∧ (bb.Execute p w).steps = [Step.httpGet bb.url, Step.readAll, Step.closeBody])
      ∧ (∀ res body e, w.httpGet bb.url = Except.ok res → res.readAll = Except.ok body →
          w.jsonUnmarshal body = Except.error e →
          (bb.Execute p w).err = some e ∧ (bb.Execute p w).bugs = none
            ∧ (bb.Execute p w).steps
              = [Step.httpGet bb.url, Step.readAll, Step.jsonUnmarshal body, Step.closeBody]) := by
  refine ⟨?_, ?_, ?_, ?_⟩
  · constructor
    · intro h
      unfold BugBuilder.Execute at h
      cases hget : w.httpGet bb.url with
      | error e => simp [hget] at h
      | ok res =>
        cases hread : res.readAll with
        | error e => simp [hget, hread] at h
        | ok body =>
          cases hjson : w.jsonUnmarshal body with
          | error e => simp [hget, hread, hjson] at h
          | ok bugResponse => exact ⟨res, body, bugResponse, rfl, hread, hjson⟩
    · rintro ⟨res, body, bugResponse, hget, hread, hjson⟩
      rw [Execute_ok p w bb res body bugResponse hget hread hjson]
  · intro e hget
    simp [BugBuilder.Execute, hget]
  · intro res e hget hread
    simp [BugBuilder.Execute, hget, hread]
  · intro res body e hget hread hjson
    simp [BugBuilder.Execute, hget, hread, hjson]

/-- Witness of C15: a transport whose body read fails with the error `EOF`. -/
theorem C15_Execute_errors_witness :
    (NewBugzilla.GetBugs.Execute amd64
        { httpGet := fun _ => Except.ok { readAll := Except.error { message := lit "EOF" } },
          jsonUnmarshal := fun _ => Except.ok { Bugs := none } }).err
        = some { message := lit "EOF" }
      ∧ (NewBugzilla.GetBugs.Execute amd64
          { httpGet := fun _ => Except.ok { readAll := Except.error { message := lit "EOF" } },
            jsonUnmarshal := fun _ => Except.ok { Bugs := none } }).bugs = none
      ∧ (NewBugzilla.GetBugs.Execute amd64
          { httpGet := fun _ => Except.ok { readAll := Except.error { message := lit "EOF" } },
            jsonUnmarshal := fun _ => Except.ok { Bugs := none } }).steps
        = [Step.httpGet NewBugzilla.GetBugs.url, Step.readAll, Step.closeBody] :=
  (C15_Execute_errors amd64
    { httpGet := fun _ => Except.ok { readAll := Except.error { message := lit "EOF" } },
      jsonUnmarshal := fun _ => Except.ok { Bugs := none } }
    NewBugzilla.GetBugs).2.2.1
    { readAll := Except.error { message := lit "EOF" } } { message := lit "EOF" } rfl rfl

/-! ## The claims about sequences of configuration calls -/

/-- C17, counterexample: on the builder of `GetBugs`, `ChangedAfter(d)` then
`IncludeField(f)` and `IncludeField(f)` then `ChangedAfter(d)` give different
field lists and different queries. -/
theorem C17_counterexample :
    ((NewBugzilla.GetBugs.ChangedAfter (lit "2024-01-01")).IncludeField (lit "summary")).query
        = lit "include_fields=_default,last_change_time,summary&changed_after=2024-01-01"
      ∧ ((NewBugzilla.GetBugs.IncludeField (lit "summary")).ChangedAfter (lit "2024-01-01")).query
        = lit "include_fields=_default,summary,last_change_time&changed_after=2024-01-01"
      ∧ (Call.IncludeField (lit "summary")).apply
            ((Call.ChangedAfter (lit "2024-01-01")).apply NewBugzilla.GetBugs)
          ≠ (Call.ChangedAfter (lit "2024-01-01")).apply
            ((Call.IncludeField (lit "summary")).apply NewBugzilla.GetBugs) := by
  refine ⟨by decide, by decide, by decide⟩

/-- C17, amended: two calls of different kinds among `Id`, `Product`,
`Component`, `Priority`, `Severity`, `Status`, `IncludeField`,
`IncludeComments`, `IncludeHistory`, `ChangedAfter` and `Advanced` give the same
builder state, and so the same query, in either order, unless both append to
the requested-field list (`IncludeField`, `IncludeComments`, `IncludeHistory`,
`ChangedAfter`), whose order is the order of the calls. -/
theorem C17_calls_commute (bb : BugBuilder) (c d : Call)
    (hc : c.accumulating = true) (hd : d.accumulating = true) (hkind : c.kind ≠ d.kind)
    (hfields : ¬ (c.appendsField = true ∧ d.appendsField = true)) :
    d.apply (c.apply bb) = c.apply (d.apply bb)
      ∧ (d.apply (c.apply bb)).query = (c.apply (d.apply bb)).query := by
  have h : d.apply (c.apply bb) = c.apply (d.apply bb) := by
    cases c <;> cases d <;>
      first
      | (exfalso; revert hc hd hkind hfields;
          simp [Call.accumulating, Call.kind, Call.appendsField]; done)
      | rfl
  exact ⟨h, by rw [h]⟩

/-- Witness of C17 (amended): `ChangedAfter` and `Id` on the builder of
`GetBugs`, in both orders. -/
theorem C17_calls_commute_witness :
    (Call.Id 7).apply ((Call.ChangedAfter (lit "2024-01-01")).apply NewBugzilla.GetBugs)
      = (Call.ChangedAfter (lit "2024-01-01")).apply ((Call.Id 7).apply NewBugzilla.GetBugs) :=
  (C17_calls_commute NewBugzilla.GetBugs (Call.ChangedAfter (lit "2024-01-01")) (Call.Id 7)
    rfl rfl (by decide) (by decide)).1

theorem fields_append_head (s : Slice GoString) (f : GoString) (fs : List GoString)
    (h : s = some (f :: fs)) (v : GoString) : s.append v = some (f :: (fs ++ [v])) := by
  rw [h]
  rfl

theorem fields_foldl_head (s : Slice GoString) (f : GoString) (fs : List GoString)
    (h : s = some (f :: fs)) (vs : List GoString) :
    vs.foldl Slice.append s = some (f :: (fs ++ vs)) := by
  cases vs with
  | nil => simp [h]
  | cons v vs => rw [foldl_append_cons, h]; simp [Slice.elems]

/-- The field list of a builder starts with `_default` or `_all`. -/
theorem apply_fields_head (c : Call) (bb : BugBuilder)
    (h : ∃ f fs, bb.fields = some (f :: fs) ∧ (f = lit "_default" ∨ f = lit "_all")) :
    ∃ f fs, (c.apply bb).fields = some (f :: fs) ∧ (f = lit "_default" ∨ f = lit "_all") := by
  obtain ⟨f, fs, hf, hhead⟩ := h
  cases c with
  | IncludeAllFields => exact ⟨lit "_all", [], rfl, Or.inr rfl⟩
  | IncludeField field => exact ⟨f, _, fields_append_head _ f fs hf field, hhead⟩
  | IncludeFields fields => exact ⟨f, _, fields_foldl_head _ f fs hf fields, hhead⟩
  | IncludeComments => exact ⟨f, _, fields_append_head _ f fs hf _, hhead⟩
  | IncludeHistory => exact ⟨f, _, fields_append_head _ f fs hf _, hhead⟩
  | ChangedAfter changedAfter => exact ⟨f, _, fields_append_head _ f fs hf _, hhead⟩
  | CreatedToday now => exact ⟨f, _, fields_append_head _ f fs hf _, hhead⟩
  | ChangedToday now => exact ⟨f, _, fields_append_head _ f fs hf _, hhead⟩
  | Id id => exact ⟨f, fs, hf, hhead⟩
  | Product product => exact ⟨f, fs, hf, hhead⟩
  | Component component => exact ⟨f, fs, hf, hhead⟩
  | Priority priority => exact ⟨f, fs, hf, hhead⟩
  | Severity severity => exact ⟨f, fs, hf, hhead⟩
  | Status status => exact ⟨f, fs, hf, hhead⟩
  | Advanced field typ3 value => exact ⟨f, fs, hf, hhead⟩

theorem runCalls_fields_head (calls : List Call) (bb : BugBuilder)
    (h : ∃ f fs, bb.fields = some (f :: fs) ∧ (f = lit "_default" ∨ f = lit "_all")) :
    ∃ f fs, (runCalls calls bb).fields = some (f :: fs)
      ∧ (f = lit "_default" ∨ f = lit "_all") := by
  induction calls generalizing bb with
  | nil => exact h
  | cons c cs ih => exact ih (c.apply bb) (apply_fields_head c bb h)

theorem queryParams_single (p : GoString) (hp : (38 : UInt8) ∉ p) : queryParams p = [p] := by
  unfold queryParams List.splitOn
  apply List.splitOnP_eq_single
  intro x hx
  simp only [beq_iff_eq]
  intro h
  exact hp (h ▸ hx)

theorem queryParams_first (p rest : GoString) (hp : (38 : UInt8) ∉ p) :
    queryParams (p ++ lit "&" ++ rest) = p :: queryParams rest := by
  unfold queryParams List.splitOn
  rw [lit_amp, List.append_assoc, List.singleton_append]
  apply List.splitOnP_first
  · intro x hx
    simp only [beq_iff_eq]
    intro h
    exact hp (h ▸ hx)
  · simp

theorem mem_queryParams_head (p rest : GoString) (hp : (38 : UInt8) ∉ p)
    (hrest : rest = [] ∨ ∃ r, rest = lit "&" ++ r) : p ∈ queryParams (p ++ rest) := by
  rcases hrest with rfl | ⟨r, rfl⟩
  · rw [List.append_nil, queryParams_single p hp]
    simp
  · rw [← List.append_assoc, queryParams_first p r hp]
    simp

theorem amp_not_mem_fieldParam (fields : List GoString) :
    (38 : UInt8) ∉ lit "include_fields=" ++ joinComma (fields.map QueryEscape) := by
  intro h
  rcases List.mem_append.mp h with h | h
  · revert h
    decide
  · refine amp_not_mem_joinComma _ ?_ h
    intro v hv
    obtain ⟨s, _, rfl⟩ := List.mem_map.mp hv
    exact amp_not_mem_QueryEscape s

theorem amp_not_mem_idParam (ids : List Int) :
    (38 : UInt8) ∉ lit "id=" ++ joinComma (ids.map Itoa) := by
  intro h
  rcases List.mem_append.mp h with h | h
  · revert h
    decide
  · refine amp_not_mem_joinComma _ ?_ h
    intro v hv
    obtain ⟨i, _, rfl⟩ := List.mem_map.mp hv
    exact amp_not_mem_Itoa i

/-- With a non-nil field list the query has an `include_fields=` parameter and
begins with `id=` or with `include_fields=`. -/
theorem query_of_fields (bb : BugBuilder) (fields : List GoString)
    (hf : bb.fields = some fields) :
    HasParam "include_fields" bb.query
      ∧ (lit "id=" <+: bb.query ∨ lit "include_fields=" <+: bb.query) := by
  have hkey : lit "include_fields" ++ lit "=" = lit "include_fields=" := by decide
  have hfp : fieldParams bb = [lit "include_fields=" ++ joinComma (fields.map QueryEscape)] := by
    simp [fieldParams, hf]
  obtain ⟨rest, hq, hrest⟩ := query_split bb (idParams bb)
    (lit "include_fields=" ++ joinComma (fields.map QueryEscape))
    (statusParams bb ++ createdParams bb ++ changedParams bb ++ namedParams bb)
    (by simp [leadParams, hfp]) (allNonempty_idParams bb)
  cases hids : bb.ids with
  | none =>
    have hi : idParams bb = [] := by simp [idParams, hids]
    rw [hi, joinAmp_nil, amp_nil, List.nil_append] at hq
    refine ⟨⟨lit "include_fields=" ++ joinComma (fields.map QueryEscape), ?_, ?_⟩, Or.inr ?_⟩
    · rw [hq]
      exact mem_queryParams_head _ rest (amp_not_mem_fieldParam fields) hrest
    · rw [hkey]
      exact List.prefix_append _ _
    · rw [hq, List.append_assoc]
      exact List.prefix_append _ _
  | some ids =>
    have hi : idParams bb = [lit "id=" ++ joinComma (ids.map Itoa)] := by simp [idParams, hids]
    have hne : joinAmp [lit "id=" ++ joinComma (ids.map Itoa)] ≠ [] := by
      have hid : lit "id=" ≠ [] := by decide
      rw [joinAmp_cons]
      simp [hid]
    rw [hi, amp_of_ne_nil _ hne, joinAmp_cons] at hq
    simp only [List.flatMap_nil, List.append_nil] at hq
    refine ⟨⟨lit "include_fields=" ++ joinComma (fields.map QueryEscape), ?_, ?_⟩, Or.inl ?_⟩
    · rw [hq, List.append_assoc, List.append_assoc, ← List.append_assoc,
        queryParams_first _ _ (amp_not_mem_idParam ids)]
      exact List.mem_cons_of_mem _
        (mem_queryParams_head _ rest (amp_not_mem_fieldParam fields) hrest)
    · rw [hkey]
      exact List.prefix_append _ _
    · rw [hq]
      simp only [List.append_assoc]
      exact List.prefix_append _ _

/-- C20: a builder obtained from `GetBugs` by a finite sequence of
configuration calls has a non-empty field list whose first element is
`_default` or `_all`; the query `Execute` builds for it has an
`include_fields=` parameter, begins with `id=` or `include_fields=`, and does
not begin with `&`. -/
theorem C20_reachable_field_list (bb : BugBuilder) (h : Reachable bb) :
    (∃ f fs, bb.fields = some (f :: fs) ∧ (f = lit "_default" ∨ f = lit "_all"))
      ∧ HasParam "include_fields" bb.query
      ∧ (lit "id=" <+: bb.query ∨ lit "include_fields=" <+: bb.query)
      ∧ ¬ lit "&" <+: bb.query := by
  obtain ⟨bz, calls, rfl⟩ := h
  have hhead := runCalls_fields_head calls bz.GetBugs ⟨lit "_default", [], rfl, Or.inl rfl⟩
  obtain ⟨f, fs, hf, _⟩ := hhead
  have hq := query_of_fields _ (f :: fs) hf
  refine ⟨runCalls_fields_head calls bz.GetBugs ⟨lit "_default", [], rfl, Or.inl rfl⟩,
    hq.1, hq.2, ?_⟩
  intro hamp
  have h1 : lit "id=" = 105 :: [100, 61] := by decide
  have h2 : lit "include_fields=" = 105 :: lit "nclude_fields=" := by decide
  rw [lit_amp] at hamp
  rcases hq.2 with hp | hp
  · rw [h1] at hp
    obtain ⟨t, ht⟩ := hp
    obtain ⟨u, hu⟩ := hamp
    rw [← ht] at hu
    simp at hu
  · rw [h2] at hp
    obtain ⟨t, ht⟩ := hp
    obtain ⟨u, hu⟩ := hamp
    rw [← ht] at hu
    simp at hu

/-- Witness of C20 at the builder
`GetBugs().Id(5).IncludeAllFields().IncludeComments().Advanced("a", "b", "c&d")`. -/
theorem C20_reachable_field_list_witness :
    (∃ f fs, (runCalls [Call.Id 5, Call.IncludeAllFields, Call.IncludeComments,
          Call.Advanced (lit "a") (lit "b") (lit "c&d")] NewBugzilla.GetBugs).fields
        = some (f :: fs) ∧ (f = lit "_default" ∨ f = lit "_all"))
      ∧ ¬ lit "&" <+: (runCalls [Call.Id 5, Call.IncludeAllFields, Call.IncludeComments,
          Call.Advanced (lit "a") (lit "b") (lit "c&d")] NewBugzilla.GetBugs).query :=
  ⟨(C20_reachable_field_list _ ⟨NewBugzilla, [Call.Id 5, Call.IncludeAllFields,
      Call.IncludeComments, Call.Advanced (lit "a") (lit "b") (lit "c&d")], rfl⟩).1,
    (C20_reachable_field_list _ ⟨NewBugzilla, [Call.Id 5, Call.IncludeAllFields,
      Call.IncludeComments, Call.Advanced (lit "a") (lit "b") (lit "c&d")], rfl⟩).2.2.2⟩

/-! ## Calendar dates and their formatting -/

theorem civil_month_range (days : Int) : 1 ≤ (civil days).2.1 ∧ (civil days).2.1 ≤ 12 := by
  unfold civil
  simp only []
  split <;> omega

theorem civil_day_range (days : Int) : 1 ≤ (civil days).2.2 ∧ (civil days).2.2 ≤ 31 := by
  unfold civil
  simp only []
  omega

theorem toDigitsCore_acc (fuel n : Nat) (acc : List Char) :
    Nat.toDigitsCore 10 fuel n acc = Nat.toDigitsCore 10 fuel n [] ++ acc := by
  induction fuel generalizing n acc with
  | zero => simp [Nat.toDigitsCore]
  | succ fuel ih =>
    unfold Nat.toDigitsCore
    simp only []
    split
    · simp
    · rw [ih (n / 10) (Nat.digitChar (n % 10) :: acc), ih (n / 10) [Nat.digitChar (n % 10)]]
      simp

theorem toDigitsCore_fuel (f g n : Nat) (hf : n < f) (hg : n < g) :
    Nat.toDigitsCore 10 f n [] = Nat.toDigitsCore 10 g n [] := by
  induction f generalizing g n with
  | zero => omega
  | succ f ih =>
    cases g with
    | zero => omega
    | succ g =>
      unfold Nat.toDigitsCore
      simp only []
      split
      · rfl
      · rename_i hne
        rw [toDigitsCore_acc f, toDigitsCore_acc g,
          ih g (n / 10) (by omega) (by omega)]

theorem toDigits_small (n : Nat) (h : n < 10) : Nat.toDigits 10 n = [Nat.digitChar n] := by
  unfold Nat.toDigits Nat.toDigitsCore
  have h0 : n / 10 = 0 := by omega
  have h1 : n % 10 = n := by omega
  simp [h0, h1]

theorem toDigits_step (n : Nat) (h : 10 ≤ n) :
    Nat.toDigits 10 n = Nat.toDigits 10 (n / 10) ++ [Nat.digitChar (n % 10)] := by
  have h0 : n / 10 ≠ 0 := by omega
  unfold Nat.toDigits
  rw [show n + 1 = n + 1 from rfl]
  conv_lhs => unfold Nat.toDigitsCore
  simp only [h0, ↓reduceIte]
  rw [toDigitsCore_acc, toDigitsCore_fuel n (n / 10 + 1) (n / 10) (by omega) (by omega)]

theorem utf8_digitChar (d : Nat) (h : d < 10) :
    String.utf8EncodeChar (Nat.digitChar d) = [digitByte d] := by
  interval_cases d <;> decide

theorem decimal_small (n : Nat) (h : n < 10) : decimal n = [digitByte n] := by
  unfold decimal
  rw [toDigits_small n h]
  simp [utf8_digitChar n h]

theorem digitByte_mod (n : Nat) : digitByte (n % 10) = digitByte n := by
  unfold digitByte
  rw [Nat.mod_mod]

theorem decimal_step (n : Nat) (h : 10 ≤ n) :
    decimal n = decimal (n / 10) ++ [digitByte n] := by
  unfold decimal
  rw [toDigits_step n h]
  simp [utf8_digitChar (n % 10) (Nat.mod_lt _ (by decide)), digitByte_mod]

theorem decimal_two (n : Nat) (h1 : 10 ≤ n) (h2 : n < 100) :
    decimal n = [digitByte (n / 10), digitByte n] := by
  rw [decimal_step n h1, decimal_small (n / 10) (by omega)]
  rfl

theorem decimal_four (n : Nat) (h1 : 1000 ≤ n) (h2 : n ≤ 9999) :
    decimal n = [digitByte (n / 1000), digitByte (n / 100), digitByte (n / 10), digitByte n] := by
  rw [decimal_step n (by omega), decimal_step (n / 10) (by omega),
    decimal_step (n / 10 / 10) (by omega), decimal_small (n / 10 / 10 / 10) (by omega)]
  have e1 : n / 10 / 10 = n / 100 := by omega
  have e2 : n / 10 / 10 / 10 = n / 1000 := by omega
  rw [e2, e1]
  rfl

theorem fmtPrec2_eq (i : Int) (h1 : 1 ≤ i) (h2 : i ≤ 99) :
    fmtPrec2 i = [digitByte (i.toNat / 10), digitByte i.toNat] := by
  obtain ⟨n, rfl⟩ := Int.eq_ofNat_of_zero_le (by omega : 0 ≤ i)
  have hn : n ≤ 99 := by omega
  show padLeft 2 48 (decimal n) = _
  simp only [Int.toNat_ofNat]
  by_cases hs : n < 10
  · rw [decimal_small n hs]
    have h0 : n / 10 = 0 := by omega
    rw [h0]
    rfl
  · rw [decimal_two n (by omega) (by omega)]
    rfl

theorem fmtWidth4_eq (i : Int) (h1 : 1000 ≤ i) (h2 : i ≤ 9999) :
    fmtWidth4 i = [digitByte (i.toNat / 1000), digitByte (i.toNat / 100),
      digitByte (i.toNat / 10), digitByte i.toNat] := by
  obtain ⟨n, rfl⟩ := Int.eq_ofNat_of_zero_le (by omega : 0 ≤ i)
  show padLeft 4 32 (decimal n) = _
  simp only [Int.toNat_ofNat]
  rw [decimal_four n (by omega) (by omega)]
  rfl

theorem fmtDate_eq_isoDate (t : Time) (h1 : 1000 ≤ t.Year) (h2 : t.Year ≤ 9999) :
    fmtDate t = isoDate t.Year t.Month t.Day := by
  have hm := civil_month_range ((t.unix + t.zone t.unix) / 86400)
  have hd := civil_day_range ((t.unix + t.zone t.unix) / 86400)
  have hdash : lit "-" = [45] := by decide
  unfold fmtDate
  rw [fmtWidth4_eq t.Year h1 h2, fmtPrec2_eq t.Month hm.1 (by have := hm.2; unfold Time.Month Time.date; omega),
    fmtPrec2_eq t.Day hd.1 (by have := hd.2; unfold Time.Day Time.date; omega), hdash]
  rfl

/-- C18: for an instant `now` that a clock reads, one whose year, as that of
`now` plus 24 hours, has four digits (1000 to 9999), `ChangedToday` sets
changedAfter to the calendar date of `now` and changedBefore to the calendar
date of `now` plus 24 hours, each as zero-padded `YYYY-MM-DD` of exactly 10
characters; `CreatedToday` stores the same two strings in createdAfter and
createdBefore. -/
theorem C18_today_dates (bb : BugBuilder) (now : Time)
    (hnow : 1000 ≤ now.Year ∧ now.Year ≤ 9999)
    (hlater : 1000 ≤ (now.Add 86400).Year ∧ (now.Add 86400).Year ≤ 9999) :
    (bb.ChangedToday now).changedAfter = isoDate now.Year now.Month now.Day
      ∧ (bb.ChangedToday now).changedBefore
        = isoDate (now.Add 86400).Year (now.Add 86400).Month (now.Add 86400).Day
      ∧ (bb.CreatedToday now).createdAfter = (bb.ChangedToday now).changedAfter
      ∧ (bb.CreatedToday now).createdBefore = (bb.ChangedToday now).changedBefore
      ∧ (bb.ChangedToday now).changedAfter.length = 10
      ∧ (bb.ChangedToday now).changedBefore.length = 10 := by
  have h1 : (bb.ChangedToday now).changedAfter = isoDate now.Year now.Month now.Day :=
    fmtDate_eq_isoDate now hnow.1 hnow.2
  have h2 : (bb.ChangedToday now).changedBefore
      = isoDate (now.Add 86400).Year (now.Add 86400).Month (now.Add 86400).Day :=
    fmtDate_eq_isoDate (now.Add 86400) hlater.1 hlater.2
  refine ⟨h1, h2, rfl, rfl, ?_, ?_⟩
  · rw [h1]; rfl
  · rw [h2]; rfl

/-- Witness of C18 at the instant 2023-11-14 22:13:20 UTC. -/
theorem C18_today_dates_witness :
    (NewBugzilla.GetBugs.ChangedToday { unix := 1700000000, zone := fun _ => 0 }).changedAfter
        = isoDate 2023 11 14
      ∧ (NewBugzilla.GetBugs.ChangedToday { unix := 1700000000, zone := fun _ => 0 }).changedBefore
        = isoDate 2023 11 15 :=
  ⟨(C18_today_dates NewBugzilla.GetBugs { unix := 1700000000, zone := fun _ => 0 }
      (by decide) (by decide)).1,
   (C18_today_dates NewBugzilla.GetBugs { unix := 1700000000, zone := fun _ => 0 }
      (by decide) (by decide)).2.1⟩

/-! ## The claim about the repeated date pair -/

theorem not_ch_of_name (a b : UInt8) (name value : GoString) (hab : ¬ (a = 99 ∧ b = 104)) :
    ¬ ([99, 104] : GoString) <+: a :: b :: name ++ value := by
  intro h
  simp only [List.cons_append, List.cons_prefix_cons] at h
  exact hab ⟨h.1.symm, h.2.1.symm⟩

theorem not_ch_idParams (bb : BugBuilder) : ∀ p ∈ idParams bb, ¬ ([99, 104] : GoString) <+: p := by
  unfold idParams
  cases bb.ids with
  | none => simp
  | some ids =>
    intro p hp
    simp only [List.mem_singleton] at hp
    rw [hp, show lit "id=" = 105 :: 100 :: [61] by decide]
    exact not_ch_of_name _ _ _ _ (by decide)

theorem not_ch_fieldParams (bb : BugBuilder) :
    ∀ p ∈ fieldParams bb, ¬ ([99, 104] : GoString) <+: p := by
  unfold fieldParams
  cases bb.fields with
  | none => simp
  | some fields =>
    intro p hp
    simp only [List.mem_singleton] at hp
    rw [hp, show lit "include_fields=" = 105 :: 110 :: lit "clude_fields=" by decide]
    exact not_ch_of_name _ _ _ _ (by decide)

theorem not_ch_statusParams (bb : BugBuilder) :
    ∀ p ∈ statusParams bb, ¬ ([99, 104] : GoString) <+: p := by
  intro p hp
  obtain ⟨s, _, rfl⟩ := List.mem_map.mp hp
  rw [show lit "status=" = 115 :: 116 :: lit "atus=" by decide]
  exact not_ch_of_name _ _ _ _ (by decide)

theorem not_ch_namedParams (bb : BugBuilder) :
    ∀ p ∈ namedParams bb, ¬ ([99, 104] : GoString) <+: p := by
  rw [namedParams_eq_ite]
  intro p hp
  simp only [List.mem_append] at hp
  rcases hp with ((hp | hp) | hp) | hp
  · split at hp
    · simp only [List.mem_singleton] at hp
      rw [hp, show lit "product=" = 112 :: 114 :: lit "oduct=" by decide]
      exact not_ch_of_name _ _ _ _ (by decide)
    · simp at hp
  · split at hp
    · simp only [List.mem_singleton] at hp
      rw [hp, show lit "component=" = 99 :: 111 :: lit "mponent=" by decide]
      exact not_ch_of_name _ _ _ _ (by decide)
    · simp at hp
  · split at hp
    · simp only [List.mem_singleton] at hp
      rw [hp, show lit "severity=" = 115 :: 101 :: lit "verity=" by decide]
      exact not_ch_of_name _ _ _ _ (by decide)
    · simp at hp
  · split at hp
    · simp only [List.mem_singleton] at hp
      rw [hp, show lit "priority=" = 112 :: 114 :: lit "iority=" by decide]
      exact not_ch_of_name _ _ _ _ (by decide)
    · simp at hp

theorem ch_changedAfter (v : GoString) : ([99, 104] : GoString) <+: lit "changed_after=" ++ v := by
  rw [show lit "changed_after=" = [99, 104] ++ lit "anged_after=" by decide, List.append_assoc]
  exact List.prefix_append _ _

theorem ch_changedBefore (v : GoString) :
    ([99, 104] : GoString) <+: lit "changed_before=" ++ v := by
  rw [show lit "changed_before=" = [99, 104] ++ lit "anged_before=" by decide, List.append_assoc]
  exact List.prefix_append _ _

theorem changedAfter_ne_changedBefore (v w : GoString) :
    lit "changed_after=" ++ v ≠ lit "changed_before=" ++ w := by
  rw [show lit "changed_after=" = lit "changed_" ++ (97 :: lit "fter=") by decide,
    show lit "changed_before=" = lit "changed_" ++ (98 :: lit "efore=") by decide,
    List.append_assoc, List.append_assoc]
  intro h
  have h2 := List.append_cancel_left h
  simp at h2

theorem amp_not_mem_params (bb : BugBuilder) :
    ∀ p ∈ leadParams bb ++ namedParams bb, (38 : UInt8) ∉ p := by
  intro p hp
  simp only [leadParams, List.mem_append] at hp
  rcases hp with ((((hp | hp) | hp) | hp) | hp) | hp
  · exact (plainParam_idParams bb p hp).1
  · unfold fieldParams at hp
    cases hf : bb.fields with
    | none => simp [hf] at hp
    | some fields =>
      simp only [hf, List.mem_singleton] at hp
      rw [hp]
      exact amp_not_mem_fieldParam fields
  · exact (plainParam_statusParams bb p hp).1
  · exact (plainParam_createdParams bb p hp).1
  · exact (plainParam_changedParams bb p hp).1
  · exact (plainParam_namedParams bb p hp).1

theorem queryParams_query (bb : BugBuilder) (hadv : bb.advanced.elems = [])
    (hauth : bb.bz.AuthParams = none) (hne : leadParams bb ++ namedParams bb ≠ []) :
    queryParams bb.query = leadParams bb ++ namedParams bb := by
  have ha : authText bb.bz = [] := by simp [authText, hauth]
  rw [query_eq, hadv, ha]
  simp only [advancedText, List.append_nil]
  exact queryParams_joinAmp _ (amp_not_mem_params bb) hne

theorem count_of_not_ch (p : GoString) (hp : ([99, 104] : GoString) <+: p)
    (params : List GoString) (h : ∀ q ∈ params, ¬ ([99, 104] : GoString) <+: q) :
    params.count p = 0 := by
  rw [List.count_eq_zero]
  intro hmem
  exact h p hmem hp

theorem count_changedAfter (bb : BugBuilder) (mid : List GoString)
    (h : queryParams bb.query
      = idParams bb ++ fieldParams bb ++ statusParams bb ++ mid ++ namedParams bb) :
    (queryParams bb.query).count (lit "changed_after=" ++ QueryEscape bb.changedAfter)
      = mid.count (lit "changed_after=" ++ QueryEscape bb.changedAfter) := by
  rw [h]
  simp only [List.count_append]
  rw [count_of_not_ch _ (ch_changedAfter _) _ (not_ch_idParams bb),
    count_of_not_ch _ (ch_changedAfter _) _ (not_ch_fieldParams bb),
    count_of_not_ch _ (ch_changedAfter _) _ (not_ch_statusParams bb),
    count_of_not_ch _ (ch_changedAfter _) _ (not_ch_namedParams bb)]
  simp

theorem count_changedBefore (bb : BugBuilder) (mid : List GoString)
    (h : queryParams bb.query
      = idParams bb ++ fieldParams bb ++ statusParams bb ++ mid ++ namedParams bb) :
    (queryParams bb.query).count (lit "changed_before=" ++ QueryEscape bb.changedBefore)
      = mid.count (lit "changed_before=" ++ QueryEscape bb.changedBefore) := by
  rw [h]
  simp only [List.count_append]
  rw [count_of_not_ch _ (ch_changedBefore _) _ (not_ch_idParams bb),
    count_of_not_ch _ (ch_changedBefore _) _ (not_ch_fieldParams bb),
    count_of_not_ch _ (ch_changedBefore _) _ (not_ch_statusParams bb),
    count_of_not_ch _ (ch_changedBefore _) _ (not_ch_namedParams bb)]
  simp

theorem count_pair (bb : BugBuilder) :
    (changedPair bb).count (lit "changed_after=" ++ QueryEscape bb.changedAfter) = 1
      ∧ (changedPair bb).count (lit "changed_before=" ++ QueryEscape bb.changedBefore) = 1 := by
  have hne := changedAfter_ne_changedBefore (QueryEscape bb.changedAfter)
    (QueryEscape bb.changedBefore)
  refine ⟨?_, ?_⟩
  · simp [changedPair, List.count_cons, hne.symm]
  · simp [changedPair, List.count_cons, hne]

theorem emit_pair_text (bb : BugBuilder) (query : GoString) :
    amp query ++ (lit "changed_after=" ++ QueryEscape bb.changedAfter)
        ++ (lit "&changed_before=" ++ QueryEscape bb.changedBefore)
      = amp query ++ changedPairText bb := by
  simp [changedPairText]

theorem changedPairText_ne_nil (bb : BugBuilder) : changedPairText bb ≠ [] := by
  have h : lit "changed_after=" ≠ [] := by decide
  simp [changedPairText, h]

set_option maxRecDepth 100000 in
/-- C19, counterexample: the builder
`GetBugs().CreatedToday().ChangedToday().Advanced(..)` at 2023-11-14 has all
four dates non-empty, and an advanced value that repeats the pair, copied as it
is: the pair occurs three times in the query. -/
theorem C19_counterexample :
    occurrences
        (changedPairText
          (((NewBugzilla.GetBugs.CreatedToday { unix := 1700000000, zone := fun _ => 0 }).ChangedToday
            { unix := 1700000000, zone := fun _ => 0 }).Advanced (lit "summary") (lit "substring")
            (lit "x&changed_after=2023-11-14&changed_before=2023-11-15")))
        (((NewBugzilla.GetBugs.CreatedToday { unix := 1700000000, zone := fun _ => 0 }).ChangedToday
            { unix := 1700000000, zone := fun _ => 0 }).Advanced (lit "summary") (lit "substring")
            (lit "x&changed_after=2023-11-14&changed_before=2023-11-15")).query
      = 3 := by
  decide

/-- C19, amended: with changedAfter and changedBefore non-empty, the two date
blocks of `Execute` emit the pair
`changed_after=QueryEscape(changedAfter)&changed_before=QueryEscape(changedBefore)`
twice, back to back, when createdAfter and createdBefore are both non-empty,
and once when one of them is empty; for a builder without advanced triples and
auth mapping (whose texts are copied unescaped) the two parameters then occur
exactly twice, resp. exactly once, among the parameters of the query. -/
theorem C19_changed_pair_repeated (bb : BugBuilder)
    (hha : bb.changedAfter ≠ []) (hhb : bb.changedBefore ≠ []) :
    (bb.createdAfter ≠ [] ∧ bb.createdBefore ≠ [] →
        (∀ query, emitChanged bb (emitCreated bb query)
            = amp query ++ changedPairText bb ++ lit "&" ++ changedPairText bb)
          ∧ (bb.advanced.elems = [] → bb.bz.AuthParams = none →
              queryParams bb.query
                  = idParams bb ++ fieldParams bb ++ statusParams bb
                    ++ (changedPair bb ++ changedPair bb) ++ namedParams bb
                ∧ (queryParams bb.query).count
                    (lit "changed_after=" ++ QueryEscape bb.changedAfter) = 2
                ∧ (queryParams bb.query).count
                    (lit "changed_before=" ++ QueryEscape bb.changedBefore) = 2))
      ∧ (bb.createdAfter = [] ∨ bb.createdBefore = [] →
        (∀ query, emitChanged bb (emitCreated bb query) = amp query ++ changedPairText bb)
          ∧ (bb.advanced.elems = [] → bb.bz.AuthParams = none →
              queryParams bb.query
                  = idParams bb ++ fieldParams bb ++ statusParams bb
                    ++ changedPair bb ++ namedParams bb
                ∧ (queryParams bb.query).count
                    (lit "changed_after=" ++ QueryEscape bb.changedAfter) = 1
                ∧ (queryParams bb.query).count
                    (lit "changed_before=" ++ QueryEscape bb.changedBefore) = 1)) := by
  have hchanged : changedParams bb = changedPair bb := by simp [changedParams, hha, hhb]
  refine ⟨?_, ?_⟩
  · rintro ⟨hca, hcb⟩
    have hcreated : createdParams bb = changedPair bb := by simp [createdParams, hca, hcb]
    refine ⟨?_, ?_⟩
    · intro query
      have h1 : emitCreated bb query = amp query ++ changedPairText bb := by
        simp only [emitCreated, length_ne_zero_iff, hca, hcb, ne_eq, not_false_eq_true, and_self,
          ↓reduceIte]
        exact emit_pair_text bb query
      have hne : amp query ++ changedPairText bb ≠ [] := by
        simp [changedPairText_ne_nil]
      rw [h1]
      simp only [emitChanged, length_ne_zero_iff, hha, hhb, ne_eq, not_false_eq_true, and_self,
        ↓reduceIte]
      rw [emit_pair_text, amp_of_ne_nil _ hne]
    · intro hadv hauth
      have hq : queryParams bb.query
          = idParams bb ++ fieldParams bb ++ statusParams bb
            ++ (changedPair bb ++ changedPair bb) ++ namedParams bb := by
        rw [queryParams_query bb hadv hauth (by simp [leadParams, hchanged, changedPair])]
        simp [leadParams, hcreated, hchanged]
      refine ⟨hq, ?_, ?_⟩
      · rw [count_changedAfter bb _ hq, List.count_append, (count_pair bb).1]
      · rw [count_changedBefore bb _ hq, List.count_append, (count_pair bb).2]
  · intro hempty
    have hcreated : createdParams bb = [] := by
      unfold createdParams
      rcases hempty with h | h <;> simp [h]
    refine ⟨?_, ?_⟩
    · intro query
      have h1 : emitCreated bb query = query := by
        unfold emitCreated
        rcases hempty with h | h <;> simp [h]
      rw [h1]
      simp only [emitChanged, length_ne_zero_iff, hha, hhb, ne_eq, not_false_eq_true, and_self,
        ↓reduceIte]
      exact emit_pair_text bb query
    · intro hadv hauth
      have hq : queryParams bb.query
          = idParams bb ++ fieldParams bb ++ statusParams bb ++ changedPair bb
            ++ namedParams bb := by
        rw [queryParams_query bb hadv hauth (by simp [leadParams, hchanged, changedPair])]
        simp [leadParams, hcreated, hchanged]
      refine ⟨hq, ?_, ?_⟩
      · rw [count_changedAfter bb _ hq, (count_pair bb).1]
      · rw [count_changedBefore bb _ hq, (count_pair bb).2]

/-- Witness of C19 (amended) at the builder `GetBugs().CreatedToday().ChangedToday()`
at 2023-11-14: `changed_after=2023-11-14` is a parameter of the query exactly
twice. -/
theorem C19_changed_pair_repeated_witness :
    (queryParams
        ((NewBugzilla.GetBugs.CreatedToday { unix := 1700000000, zone := fun _ => 0 }).ChangedToday
          { unix := 1700000000, zone := fun _ => 0 }).query).count
      (lit "changed_after=" ++ QueryEscape
        ((NewBugzilla.GetBugs.CreatedToday { unix := 1700000000, zone := fun _ => 0 }).ChangedToday
          { unix := 1700000000, zone := fun _ => 0 }).changedAfter) = 2 :=
  (((C19_changed_pair_repeated
    ((NewBugzilla.GetBugs.CreatedToday { unix := 1700000000, zone := fun _ => 0 }).ChangedToday
      { unix := 1700000000, zone := fun _ => 0 })
    (by decide) (by decide)).1 ⟨by decide, by decide⟩).2 (by decide) (by decide)).2.1

/-! ## The claim about the sorter -/

theorem getElem?_append_length (pre : List Bug) (x : Bug) (rest : List Bug) :
    (pre ++ x :: rest)[pre.length]? = some x := by
  induction pre with
  | nil => simp
  | cons p ps ih => simpa using ih

theorem getElem?_append_length_succ (pre : List Bug) (y x : Bug) (rest : List Bug) :
    (pre ++ y :: x :: rest)[pre.length + 1]? = some x := by
  induction pre with
  | nil => simp
  | cons p ps ih => simpa using ih

theorem set_swap_adjacent (pre : List Bug) (y x : Bug) (rest : List Bug) :
    ((pre ++ y :: x :: rest).set (pre.length + 1) y).set pre.length x
      = pre ++ x :: y :: rest := by
  induction pre with
  | nil => simp
  | cons p ps ih => simp [ih]

theorem Less_adjacent (by_ : Bug → Bug → Bool) (pre : List Bug) (y x : Bug) (rest : List Bug) :
    bugSorter.Less { bugs := pre ++ y :: x :: rest, by_ := by_ } (pre.length + 1) pre.length
      = by_ x y := by
  simp only [bugSorter.Less, getElem?_append_length_succ, getElem?_append_length]

theorem Swap_adjacent (by_ : Bug → Bug → Bool) (pre : List Bug) (y x : Bug) (rest : List Bug) :
    bugSorter.Swap { bugs := pre ++ y :: x :: rest, by_ := by_ } (pre.length + 1) pre.length
      = { bugs := pre ++ x :: y :: rest, by_ := by_ } := by
  simp only [bugSorter.Swap, getElem?_append_length_succ, getElem?_append_length,
    set_swap_adjacent]

/-- The inner loop moves the element at index `j` to the left over the
elements it orders before, and stops at the first one it does not. -/
theorem insertionInner_spec (by_ : Bug → Bug → Bool) (pre : List Bug) (x : Bug)
    (rest : List Bug) :
    ∃ front back, pre = front ++ back
      ∧ insertionInner pre.length { bugs := pre ++ x :: rest, by_ := by_ }
        = { bugs := front ++ x :: back ++ rest, by_ := by_ }
      ∧ (∀ y ∈ back, by_ x y = true)
      ∧ (∀ y, front.getLast? = some y → by_ x y = false) := by
  induction pre using List.reverseRecOn generalizing rest with
  | nil => exact ⟨[], [], rfl, rfl, by simp, by simp⟩
  | append_singleton pre y ih =>
    have hl : (pre ++ [y]).length = pre.length + 1 := by simp
    have hlist : pre ++ [y] ++ x :: rest = pre ++ y :: x :: rest := by simp
    rw [hl, hlist]
    unfold insertionInner
    rw [Less_adjacent]
    by_cases hlt : by_ x y = true
    · rw [if_pos hlt, Swap_adjacent]
      obtain ⟨front, back, hpre, hres, hback, hfront⟩ := ih (y :: rest)
      refine ⟨front, back ++ [y], by rw [hpre]; simp, ?_, ?_, hfront⟩
      · rw [hres]
        simp
      · intro z hz
        rcases List.mem_append.mp hz with h | h
        · exact hback z h
        · simp at h
          rw [h]
          exact hlt
    · rw [if_neg hlt]
      refine ⟨pre ++ [y], [], by simp, by simp, by simp, ?_⟩
      intro z hz
      simp at hz
      rw [← hz]
      simpa using hlt

theorem pairwise_insert (by_ : Bug → Bug → Bool)
    (hasym : ∀ a b, by_ a b = true → by_ b a = false)
    (hneg : ∀ a b c, by_ b a = false → by_ c b = false → by_ c a = false)
    (front back : List Bug) (x : Bug)
    (hsorted : List.Pairwise (fun a b => by_ b a = false) (front ++ back))
    (hback : ∀ y ∈ back, by_ x y = true)
    (hfront : ∀ y, front.getLast? = some y → by_ x y = false) :
    List.Pairwise (fun a b => by_ b a = false) (front ++ x :: back) := by
  rw [List.pairwise_append] at hsorted ⊢
  obtain ⟨hf, hb, hfb⟩ := hsorted
  have hfx : ∀ a ∈ front, by_ x a = false := by
    intro a ha
    rcases List.eq_nil_or_concat front with hnil | ⟨init, last, hcat⟩
    · rw [hnil] at ha
      simp at ha
    · have hlast : by_ x last = false := hfront last (by rw [hcat]; simp)
      rw [hcat, List.concat_eq_append] at ha hf
      rcases List.mem_append.mp ha with h | h
      · have hal : by_ last a = false := by
          rw [List.pairwise_append] at hf
          exact hf.2.2 a h last (by simp)
        exact hneg a last x hal hlast
      · simp at h
        rw [h]
        exact hlast
  refine ⟨hf, ?_, ?_⟩
  · rw [List.pairwise_cons]
    exact ⟨fun b hb' => hasym x b (hback b hb'), hb⟩
  · intro a ha b hb'
    rcases List.mem_cons.mp hb' with h | h
    · rw [h]
      exact hfx a ha
    · exact hfb a ha b h

theorem insertionOuter_spec (by_ : Bug → Bug → Bool)
    (hasym : ∀ a b, by_ a b = true → by_ b a = false)
    (hneg : ∀ a b c, by_ b a = false → by_ c b = false → by_ c a = false)
    (rest pre : List Bug) (hpre : List.Pairwise (fun a b => by_ b a = false) pre) :
    ∃ result,
      insertionOuter rest.length pre.length { bugs := pre ++ rest, by_ := by_ }
          = { bugs := result, by_ := by_ }
        ∧ result.Perm (pre ++ rest)
        ∧ List.Pairwise (fun a b => by_ b a = false) result := by
  induction rest generalizing pre with
  | nil => exact ⟨pre, by simp [insertionOuter], by simp, hpre⟩
  | cons x rest ih =>
    obtain ⟨front, back, hsplit, hinner, hback, hfront⟩ := insertionInner_spec by_ pre x rest
    have hsorted : List.Pairwise (fun a b => by_ b a = false) (front ++ x :: back) :=
      pairwise_insert by_ hasym hneg front back x (hsplit ▸ hpre) hback hfront
    obtain ⟨result, hres, hperm, hpair⟩ := ih (front ++ x :: back) hsorted
    have hlen : (front ++ x :: back).length = pre.length + 1 := by
      rw [hsplit]
      simp
      omega
    refine ⟨result, ?_, ?_, hpair⟩
    · simp only [List.length_cons, insertionOuter]
      rw [hinner, ← hlen]
      simpa using hres
    · refine hperm.trans ?_
      rw [hsplit]
      simp only [List.append_assoc, List.cons_append]
      exact List.Perm.append_left front List.perm_middle.symm

theorem sortSort_spec (by_ : Bug → Bug → Bool)
    (hasym : ∀ a b, by_ a b = true → by_ b a = false)
    (hneg : ∀ a b c, by_ b a = false → by_ c b = false → by_ c a = false)
    (bugs : List Bug) :
    ∃ result,
      sortSort { bugs := bugs, by_ := by_ } = { bugs := result, by_ := by_ }
        ∧ result.Perm bugs ∧ List.Pairwise (fun a b => by_ b a = false) result := by
  cases bugs with
  | nil => exact ⟨[], rfl, List.Perm.refl _, List.Pairwise.nil⟩
  | cons a rest =>
    obtain ⟨result, hres, hperm, hpair⟩ :=
      insertionOuter_spec by_ hasym hneg rest [a] (List.pairwise_singleton _ _)
    refine ⟨result, ?_, hperm, hpair⟩
    simpa [sortSort, bugSorter.Len] using hres

theorem Before_iff (t u : Time) :
    t.Before u = true ↔ (t.unix < u.unix ∨ (t.unix = u.unix ∧ t.nsec < u.nsec)) := by
  simp [Time.Before]

theorem Before_false_iff (t u : Time) :
    t.Before u = false ↔ ¬ (t.unix < u.unix ∨ (t.unix = u.unix ∧ t.nsec < u.nsec)) := by
  rw [← Before_iff]
  simp

theorem LastChangeTime_asymm (a b : Bug) (h : LastChangeTime a b = true) :
    LastChangeTime b a = false := by
  unfold LastChangeTime at h ⊢
  rw [Before_iff] at h
  rw [Before_false_iff]
  omega

theorem LastChangeTime_neg_trans (a b c : Bug) (h1 : LastChangeTime b a = false)
    (h2 : LastChangeTime c b = false) : LastChangeTime c a = false := by
  unfold LastChangeTime at h1 h2 ⊢
  rw [Before_false_iff] at h1 h2 ⊢
  omega

/-- C16: for every sequence of records, `By(LastChangeTime).Sort` rearranges it
into a permutation of the input in which no record has a last-change time
before that of an earlier record, so that the last-change time is nondecreasing
from each element to the next; a `nil` sequence stays `nil`; three records given
out of order come out in the order of their last-change times. -/
theorem C16_sort_by_LastChangeTime (bugs : List Bug) :
    (∃ result, By.Sort LastChangeTime (some bugs) = some result
        ∧ result.Perm bugs
        ∧ List.Pairwise
            (fun a b => b.LastChangeTime.Before a.LastChangeTime = false) result
        ∧ List.Chain'
            (fun a b => b.LastChangeTime.Before a.LastChangeTime = false) result)
      ∧ By.Sort LastChangeTime none = none
      ∧ ((By.Sort LastChangeTime
            (some [{ zeroBug with Id := 3, LastChangeTime := { unix := 30, zone := fun _ => 0 } },
                   { zeroBug with Id := 1, LastChangeTime := { unix := 10, zone := fun _ => 0 } },
                   { zeroBug with
                       Id := 2
                       LastChangeTime := { unix := 10, zone := fun _ => 0, nsec := 5 } }])).elems.map
          Bug.Id) = [1, 2, 3] := by
  refine ⟨?_, rfl, by decide⟩
  obtain ⟨result, hres, hperm, hpair⟩ :=
    sortSort_spec LastChangeTime LastChangeTime_asymm LastChangeTime_neg_trans bugs
  refine ⟨result, ?_, hperm, hpair, List.Pairwise.chain' hpair⟩
  simp [By.Sort, hres]

/-! ## The claims about every builder obtained from `GetBugs` -/

theorem apply_ids (c : Call) (bb : BugBuilder)
    (h : bb.ids = none ∨ ∃ i is, bb.ids = some (i :: is)) :
    (c.apply bb).ids = none ∨ ∃ i is, (c.apply bb).ids = some (i :: is) := by
  cases c with
  | Id id =>
    right
    rcases h with h | ⟨i, is, h⟩
    · exact ⟨id, [], by simp [Call.apply, BugBuilder.Id, Slice.append, Slice.elems, h]⟩
    · exact ⟨i, is ++ [id], by simp [Call.apply, BugBuilder.Id, Slice.append, Slice.elems, h]⟩
  | Product product => exact h
  | Component component => exact h
  | Priority priority => exact h
  | Severity severity => exact h
  | Status status => exact h
  | IncludeAllFields => exact h
  | IncludeField field => exact h
  | IncludeFields fields => exact h
  | IncludeComments => exact h
  | IncludeHistory => exact h
  | ChangedAfter changedAfter => exact h
  | CreatedToday now => exact h
  | ChangedToday now => exact h
  | Advanced field typ3 value => exact h

theorem runCalls_ids (calls : List Call) (bb : BugBuilder)
    (h : bb.ids = none ∨ ∃ i is, bb.ids = some (i :: is)) :
    (runCalls calls bb).ids = none ∨ ∃ i is, (runCalls calls bb).ids = some (i :: is) := by
  induction calls generalizing bb with
  | nil => exact h
  | cons c cs ih => exact ih (c.apply bb) (apply_ids c bb h)

/-- A builder obtained from `GetBugs` has a non-empty field list, and an id
list that is `nil` or holds an id. -/
theorem reachable_lists (bb : BugBuilder) (h : Reachable bb) :
    (∃ f fs, bb.fields = some (f :: fs))
      ∧ (bb.ids = none ∨ ∃ i is, bb.ids = some (i :: is)) := by
  obtain ⟨bz, calls, rfl⟩ := h
  obtain ⟨f, fs, hf, _⟩ :=
    runCalls_fields_head calls bz.GetBugs ⟨lit "_default", [], rfl, Or.inl rfl⟩
  exact ⟨⟨f, fs, hf⟩, runCalls_ids calls bz.GetBugs (Or.inl rfl)⟩

theorem authParamList_flatMap (bz : Bugzilla) :
    (authParamList bz).flatMap (fun q => lit "&" ++ q) = authText bz := by
  unfold authParamList authText
  cases bz.AuthParams with
  | none => rfl
  | some params =>
    induction params with
    | nil => rfl
    | cons a as ih =>
      simp only [List.map_cons, List.flatMap_cons] at ih ⊢
      rw [ih]
      simp

theorem allNonempty_advancedParams (i : Nat) (ts : List AdvancedTuple) :
    AllNonempty (advancedParams i ts) := by
  induction ts generalizing i with
  | nil => exact allNonempty_nil
  | cons t ts ih =>
    have h1 : lit "field" ≠ [] := by decide
    have h2 : lit "type" ≠ [] := by decide
    have h3 : lit "value" ≠ [] := by decide
    unfold advancedParams
    refine AllNonempty.append ?_ (ih (i + 1))
    intro q hq
    simp only [tripleParams, List.mem_cons, List.mem_singleton, List.not_mem_nil, or_false] at hq
    rcases hq with rfl | rfl | rfl <;> simp [h1, h2, h3]

theorem allNonempty_authParamList (bz : Bugzilla) : AllNonempty (authParamList bz) := by
  unfold authParamList
  cases bz.AuthParams with
  | none => exact allNonempty_nil
  | some params =>
    intro q hq
    obtain ⟨a, _, rfl⟩ := List.mem_map.mp hq
    have h : lit "=" ≠ [] := by decide
    simp [h]

/-- With a non-nil field list the query is the `&`-join of all the parameters
`Execute` emits. -/
theorem query_eq_emitted (bb : BugBuilder) (fields : List GoString)
    (hf : bb.fields = some fields) :
    bb.query = joinAmp (emittedParams bb) ∧ emittedParams bb ≠ [] := by
  have hfp : fieldParams bb = [lit "include_fields=" ++ joinComma (fields.map QueryEscape)] := by
    simp [fieldParams, hf]
  have hne : leadParams bb ++ namedParams bb ≠ [] := by
    simp [leadParams, hfp]
  refine ⟨?_, ?_⟩
  · rw [query_eq]
    unfold emittedParams
    obtain ⟨x, xs, hx⟩ := List.exists_cons_of_ne_nil hne
    rw [hx]
    simp only [joinAmp, List.append_assoc]
    rw [show x :: xs ++ (advancedParams 0 bb.advanced.elems ++ authParamList bb.bz)
        = x :: xs ++ (advancedParams 0 bb.advanced.elems ++ authParamList bb.bz) from rfl,
      intercalate_append_flatMap, List.flatMap_append, advancedParams_flatMap,
      authParamList_flatMap]
  · unfold emittedParams
    simp [leadParams, hfp]

/-- C8: for every builder obtained from `GetBugs` (also when its only criteria
are advanced triples or auth parameters of the service handle) the query of
`Execute` is the non-empty parameters it emits joined by single `&` separators,
with no separator before the first one: the query does not begin with `&`. -/
theorem C8_parameters_joined (bb : BugBuilder) (h : Reachable bb) :
    bb.query = List.intercalate (lit "&") (emittedParams bb)
      ∧ AllNonempty (emittedParams bb)
      ∧ emittedParams bb ≠ []
      ∧ ¬ lit "&" <+: bb.query
      ∧ (NewBugzilla.GetBugs.Advanced (lit "a") (lit "b") (lit "c")).query
          = lit "include_fields=_default&field0-0-0=a&type0-0-0=b&value0-0-0=c"
      ∧ (Bugzilla.GetBugs (Bugzilla.mk BUGZILLA_PRODUCTION_ENDPOINT
            (some [(lit "username", lit "a b")]))).query
          = lit "include_fields=_default&username=a+b" := by
  obtain ⟨⟨f, fs, hf⟩, _⟩ := reachable_lists bb h
  have hq := query_eq_emitted bb (f :: fs) hf
  have hall : AllNonempty (emittedParams bb) :=
    (((allNonempty_leadParams bb).append (allNonempty_namedParams bb)).append
      (allNonempty_advancedParams 0 _)).append (allNonempty_authParamList bb.bz)
  refine ⟨hq.1, hall, hq.2, ?_, by decide, by decide⟩
  intro hamp
  have hstart := (query_of_fields bb (f :: fs) hf).2
  have h1 : lit "id=" = 105 :: [100, 61] := by decide
  have h2 : lit "include_fields=" = 105 :: lit "nclude_fields=" := by decide
  rw [lit_amp] at hamp
  obtain ⟨u, hu⟩ := hamp
  rcases hstart with hp | hp
  · rw [h1] at hp
    obtain ⟨t, ht⟩ := hp
    rw [← ht] at hu
    simp at hu
  · rw [h2] at hp
    obtain ⟨t, ht⟩ := hp
    rw [← ht] at hu
    simp at hu

/-- Witness of C8 at the builder `GetBugs().Advanced("summary", "substring", "x&&y")`,
whose only criterion is an advanced triple. -/
theorem C8_parameters_joined_witness :
    (runCalls [Call.Advanced (lit "summary") (lit "substring") (lit "x&&y")]
        NewBugzilla.GetBugs).query
        = List.intercalate (lit "&")
            (emittedParams (runCalls [Call.Advanced (lit "summary") (lit "substring")
              (lit "x&&y")] NewBugzilla.GetBugs))
      ∧ ¬ lit "&" <+: (runCalls [Call.Advanced (lit "summary") (lit "substring") (lit "x&&y")]
          NewBugzilla.GetBugs).query :=
  ⟨(C8_parameters_joined _ ⟨NewBugzilla,
      [Call.Advanced (lit "summary") (lit "substring") (lit "x&&y")], rfl⟩).1,
   (C8_parameters_joined _ ⟨NewBugzilla,
      [Call.Advanced (lit "summary") (lit "substring") (lit "x&&y")], rfl⟩).2.2.2.1⟩

/-- C10: for every builder obtained from `GetBugs` (its field list is never
empty) with no auth mapping on the service handle and createdAfter or
createdBefore empty, the query of `Execute` is the `&`-join of the specified
list: the `id=` parameter if there are ids, the `include_fields=` parameter, one
`status=` parameter per status value, the date clause, `product=`,
`component=`, `severity=`, `priority=` for each non-empty one, then
`field<i>-0-0=`, `type<i>-0-0=`, `value<i>-0-0=` per advanced triple in index
order. -/
theorem C10_parameter_order (bb : BugBuilder) (hreach : Reachable bb)
    (hauth : bb.bz.AuthParams = none)
    (hcreated : bb.createdAfter = [] ∨ bb.createdBefore = []) :
    bb.query = List.intercalate (lit "&") (specParams bb) := by
  obtain ⟨⟨f, fs, hf⟩, hids⟩ := reachable_lists bb hreach
  have hq := query_eq_codeParams bb f fs hf hauth hcreated
  rw [hq]
  show joinAmp _ = joinAmp _
  rcases hids with hnone | ⟨i, is, hsome⟩
  · simp [idParams, specParams, hnone, Slice.elems]
  · simp [idParams, specParams, hsome, Slice.elems]

/-- Witness of C10 at
`GetBugs().Id(5).Status("NEW").ChangedAfter("2024-01-01").Product("Core").Advanced(..)`. -/
theorem C10_parameter_order_witness :
    (runCalls [Call.Id 5, Call.Status [lit "NEW"], Call.ChangedAfter (lit "2024-01-01"),
        Call.Product (lit "Core"), Call.Advanced (lit "bug_group") (lit "equals") (lit "x y")]
        NewBugzilla.GetBugs).query
      = List.intercalate (lit "&")
          (specParams (runCalls [Call.Id 5, Call.Status [lit "NEW"],
            Call.ChangedAfter (lit "2024-01-01"), Call.Product (lit "Core"),
            Call.Advanced (lit "bug_group") (lit "equals") (lit "x y")] NewBugzilla.GetBugs)) :=
  C10_parameter_order _ ⟨NewBugzilla, [Call.Id 5, Call.Status [lit "NEW"],
    Call.ChangedAfter (lit "2024-01-01"), Call.Product (lit "Core"),
    Call.Advanced (lit "bug_group") (lit "equals") (lit "x y")], rfl⟩ (by decide) (by decide)

end GoBugzilla
